import Mathlib

/-!
Verification development for a hierarchical note-capture application
(SQLite-backed note/attachment store, clipboard capture pipeline,
branch navigation, and an edit-session synchronizer).

The Lean definitions below are a shallow embedding of the Python sources:

* `core/repository.py`      — `NoteRepository` (the store)
* `core/clipboard_monitor.py` — `ClipboardMonitor` (the capture pipeline)
* `core/main_window.py`     — `MainWindow` (tree reload / selection sync)
* `core/note_editor.py`     — `NoteEditor.set_current_note_id`
* `core/ui/mixins/note_action_mixin.py` — clone/copy actions
* `core/ui/mixins/branch_control_mixin.py` — branch cycling

External Qt boundaries (HTML parsing into ordered fragments, image decode,
wall-clock time, date strings) are modelled as explicit parameters, and
`QTextDocument`'s plain-text projection is modelled by `plainOfHtml`, a
tag-strip/entity-decode function that agrees with Qt on the markup this
program itself stores (escaped text, `pre` wrappers, `br` separators and
`img` references).
-/

/-! ## Python / Qt string primitives -/

/-- Whitespace set of Python `str.strip()` (ASCII part, which is what the
clipboard texts in question contain). -/
def isPySpace (c : Char) : Bool :=
  c = ' ' || c = Char.ofNat 9 || c = Char.ofNat 10 || c = Char.ofNat 13 ||
  c = Char.ofNat 11 || c = Char.ofNat 12

/-- Leading+trailing whitespace removal on character lists
(Python `str.strip()`). -/
def stripChars (l : List Char) : List Char :=
  ((l.dropWhile isPySpace).reverse.dropWhile isPySpace).reverse

/-- Python `str.strip()`. -/
def pyStrip (s : String) : String := ⟨stripChars s.data⟩

/-- One character of Python `html.escape` (`quote=True`, the default used in
`clipboard_monitor.py`): `&`, `<`, `>`, `"`, `'` become entities. -/
def escChar (c : Char) : List Char :=
  if c = Char.ofNat 38 then [Char.ofNat 38, 'a', 'm', 'p', ';']
  else if c = '<' then [Char.ofNat 38, 'l', 't', ';']
  else if c = '>' then [Char.ofNat 38, 'g', 't', ';']
  else if c = Char.ofNat 34 then [Char.ofNat 38, 'q', 'u', 'o', 't', ';']
  else if c = Char.ofNat 39 then [Char.ofNat 38, '#', 'x', '2', '7', ';']
  else [c]

/-- Python `html.escape` on character lists. -/
def escCharsList (l : List Char) : List Char := (l.map escChar).flatten

/-- Python `html.escape(s)` as used by the capture pipeline. -/
def htmlEscape (s : String) : String := ⟨escCharsList s.data⟩

/-- Decode one HTML entity after a `&` (the five entities `html.escape`
produces); anything else leaves the `&` as literal text, as Qt's lenient
parser does. Returns the decoded character and the remaining input. -/
def entityStep (r : List Char) : Char × List Char :=
  if r.take 4 = ['a', 'm', 'p', ';'] then (Char.ofNat 38, r.drop 4)
  else if r.take 3 = ['l', 't', ';'] then ('<', r.drop 3)
  else if r.take 3 = ['g', 't', ';'] then ('>', r.drop 3)
  else if r.take 5 = ['q', 'u', 'o', 't', ';'] then (Char.ofNat 34, r.drop 5)
  else if r.take 5 = ['#', 'x', '2', '7', ';'] then (Char.ofNat 39, r.drop 5)
  else (Char.ofNat 38, r)

theorem entityStep_length (r : List Char) : (entityStep r).2.length ≤ r.length := by
  unfold entityStep
  repeat' split
  all_goals simp [List.length_drop]

/-- Text contributed by one HTML tag in Qt's document model: `br` renders as a
newline in `toPlainText`, `img` as the object-replacement character U+FFFC,
other tags (`pre`, closing tags, ...) contribute nothing. -/
def tagEmit (tag : List Char) : List Char :=
  if tag.take 2 = ['b', 'r'] then [Char.ofNat 10]
  else if tag.take 3 = ['i', 'm', 'g'] then [Char.ofNat 0xFFFC]
  else []

/-- Tag-name boundary predicate: not the closing `>`. -/
def notGt (a : Char) : Bool := a ≠ '>'

/-- Model of `QTextDocument.setHtml(...).toPlainText()` on the markup grammar
this application stores: tags are consumed (with `tagEmit` contributions) and
the five `html.escape` entities are decoded back. -/
def plainChars : List Char → List Char
  | [] => []
  | c :: r =>
    if c = '<' then
      tagEmit (r.takeWhile notGt) ++ plainChars ((r.dropWhile notGt).drop 1)
    else if c = Char.ofNat 38 then
      (entityStep r).1 :: plainChars (entityStep r).2
    else
      c :: plainChars r
termination_by l => l.length
decreasing_by
  · have h1 : (List.dropWhile notGt r).length ≤ r.length :=
      (List.dropWhile_sublist _).length_le
    have h2 := List.length_drop 1 (List.dropWhile notGt r)
    simp only [List.length_cons]
    omega
  · have := entityStep_length r
    simp only [List.length_cons]
    omega
  · simp

/-- Plain-text projection of a stored body (model of the Qt boundary used by
`ClipboardMonitor._is_duplicate`). -/
def plainOfHtml (s : String) : String := ⟨plainChars s.data⟩

/-- Python `text.split('\n')` on character lists. -/
def splitLinesChars (l : List Char) : List (List Char) :=
  match l with
  | [] => [[]]
  | c :: r =>
    if c = Char.ofNat 10 then [] :: splitLinesChars r
    else
      match splitLinesChars r with
      | [] => [[c]]
      | line :: rest => (c :: line) :: rest

/-- Python `text.split('\n')`. -/
def pySplitLines (s : String) : List String :=
  (splitLinesChars s.data).map (fun l => (⟨l⟩ : String))

/-- Characters removed from capture titles by
`re.sub(r'[<>:"/\\|?*\r\n]', '', title)` in `_generate_note_title`. -/
def isTitleForbidden (c : Char) : Bool :=
  c = '<' || c = '>' || c = ':' || c = Char.ofNat 34 || c = '/' ||
  c = Char.ofNat 92 || c = '|' || c = '?' || c = '*' ||
  c = Char.ofNat 13 || c = Char.ofNat 10

/-- `re.sub(r'[<>:"/\\|?*\r\n]', '', title)`. -/
def sanitizeTitle (s : String) : String := ⟨s.data.filter (fun c => !isTitleForbidden c)⟩

/-- Python `"".join(parts)`. -/
def strJoin (parts : List String) : String := parts.foldl (fun a b => a ++ b) ""

/-- Python `sep.join(parts)`. -/
def strIntercalate (sep : String) (parts : List String) : String :=
  match parts with
  | [] => ""
  | x :: rest => rest.foldl (fun a b => a ++ sep ++ b) x

/-! ## Data model: the SQLite layout of `core/repository.py`

`notes(id, parent_id, title, body_html, cursor_position, updated_at)`,
`attachments(id, note_id, kind, name, bytes, mime)`, `state(key, value)`.
The `note_links` table is created by `_init_db` but never written or read by
the code under scrutiny, so it is not part of the state. Timestamps
(`datetime.now()`) are abstracted to a `Nat` supplied by the caller. -/

structure Note where
  id : Nat
  parent : Option Nat
  title : String
  body : Option String
  cursorPos : Option Nat
  updatedAt : Nat
deriving DecidableEq

structure Attachment where
  id : Nat
  noteId : Nat
  kind : String
  name : String
  bytes : List Nat
  mime : String
deriving DecidableEq

/-- The persistent store plus the connection-level flag set by
`PRAGMA foreign_keys = ON` in `NoteRepository.__init__` (the `try/except`
there means the flag can be off when the pragma fails). Note rows are kept in
insertion order, which `AUTOINCREMENT` makes ascending-id order. -/
structure Store where
  notes : List Note
  attachments : List Attachment
  state : List (String × String)
  nextNoteId : Nat
  nextAttId : Nat
  fkEnabled : Bool
deriving DecidableEq

/-! ## `NoteRepository` operations -/

/-- `SELECT ... FROM notes WHERE id=?` (`get_note`). -/
def get_note (s : Store) (noteId : Nat) : Option Note :=
  s.notes.find? (fun n => n.id = noteId)

/-- `get_note_by_title(title, parent_id)`: sibling lookup,
`parent_id IS NULL` when `parent` is `none`. -/
def get_note_by_title (s : Store) (title : String) (parent : Option Nat) : Option Note :=
  s.notes.find? (fun n => n.title = title && n.parent = parent)

/-- `create_note(parent_id, title)`: inserts with empty body and returns
`lastrowid`. -/
def create_note (s : Store) (parent : Option Nat) (title : String) (now : Nat) :
    Store × Nat :=
  let n : Note :=
    { id := s.nextNoteId, parent := parent, title := title,
      body := some "", cursorPos := some 0, updatedAt := now }
  ({ s with notes := s.notes ++ [n], nextNoteId := s.nextNoteId + 1 }, s.nextNoteId)

/-- `save_note(note_id, title, body_html, cursor_pos)`: first reads the stored
row and returns unchanged when title, body (`NULL` read as `""`) and cursor
position (`NULL` read as `0`) all match; otherwise updates the row and stamps
`updated_at`. -/
def save_note (s : Store) (noteId : Nat) (title body : String) (cursorPos : Nat)
    (now : Nat) : Store :=
  let unchanged :=
    match get_note s noteId with
    | some row =>
        row.title = title && row.body.getD "" = body && row.cursorPos.getD 0 = cursorPos
    | none => false
  if unchanged then s
  else
    { s with
      notes := s.notes.map (fun n =>
        if n.id = noteId then
          { n with title := title, body := some body, cursorPos := some cursorPos,
                   updatedAt := now }
        else n) }

/-- Ids of notes whose parent is already in `ids` but which are not in `ids`
themselves: one step of SQLite's recursive `ON DELETE CASCADE`. -/
def childIdsOf (s : Store) (ids : List Nat) : List Nat :=
  (s.notes.filter (fun n =>
    match n.parent with
    | some p => ids.contains p && !ids.contains n.id
    | none => false)).map (fun n => n.id)

/-- One round of cascade expansion. -/
def cascadeStep (s : Store) (ids : List Nat) : List Nat := ids ++ childIdsOf s ids

/-- Iterated cascade expansion. -/
def cascadeIter (s : Store) : Nat → List Nat → List Nat
  | 0, ids => ids
  | k + 1, ids => cascadeIter s k (cascadeStep s ids)

/-- The set of note ids SQLite's recursive cascade removes when row `noteId`
is deleted: the transitive parent-closure seeded at the row (empty when the
row does not exist). Iterating `notes.length` times reaches the fixpoint. -/
def cascadeIds (s : Store) (noteId : Nat) : List Nat :=
  match get_note s noteId with
  | none => []
  | some _ => cascadeIter s s.notes.length [noteId]

/-- `delete_note(note_id)`: a single `DELETE FROM notes WHERE id=?`. With
foreign-key enforcement on, the engine cascades through `notes.parent_id` and
`attachments.note_id`; with the pragma not in effect (SQLite's default) only
the one row disappears. -/
def delete_note (s : Store) (noteId : Nat) : Store :=
  if s.fkEnabled then
    let del := cascadeIds s noteId
    { s with
      notes := s.notes.filter (fun n => !del.contains n.id),
      attachments := s.attachments.filter (fun a => !del.contains a.noteId) }
  else
    { s with notes := s.notes.filter (fun n => !(n.id = noteId : Bool)) }

/-- `move_note(note_id, new_parent_id)`. -/
def move_note (s : Store) (noteId : Nat) (newParent : Option Nat) (now : Nat) : Store :=
  { s with
    notes := s.notes.map (fun n =>
      if n.id = noteId then { n with parent := newParent, updatedAt := now } else n) }

/-- `get_attachments(note_id)`: images only, id order. -/
def get_attachments (s : Store) (noteId : Nat) : List Attachment :=
  s.attachments.filter (fun a => a.noteId = noteId && a.kind = "image")

/-- `get_attachment(attachment_id)`. -/
def get_attachment (s : Store) (attId : Nat) : Option Attachment :=
  s.attachments.find? (fun a => a.id = attId)

/-- `add_attachment(note_id, name, image_bytes, mime)` (kind is always
`'image'`); returns `lastrowid`. -/
def add_attachment (s : Store) (noteId : Nat) (name : String) (bytes : List Nat)
    (mime : String) : Store × Nat :=
  let a : Attachment :=
    { id := s.nextAttId, noteId := noteId, kind := "image", name := name,
      bytes := bytes, mime := mime }
  ({ s with attachments := s.attachments ++ [a], nextAttId := s.nextAttId + 1 },
   s.nextAttId)

/-- `set_state(key, value)`: `INSERT OR REPLACE`. -/
def set_state (s : Store) (key value : String) : Store :=
  { s with
    state := (s.state.filter (fun kv => !(kv.1 = key : Bool))) ++ [(key, value)] }

/-- `get_state(key)` (with `default=None`). -/
def get_state (s : Store) (key : String) : Option String :=
  (s.state.find? (fun kv => kv.1 = key)).map (fun kv => kv.2)

/-- Row of maximal id in a list (model of `ORDER BY id DESC LIMIT 1`). -/
def maxIdRow (l : List Note) : Option Note :=
  l.foldl (fun acc n =>
    match acc with
    | none => some n
    | some m => if n.id > m.id then some n else some m) none

/-- `get_last_descendant(root_id)`: the highest-id grandchild of `root_id`
(the `JOIN` on `n.parent_id = p.id WHERE p.parent_id = root`), falling back to
the highest-id direct child, else absent. -/
def get_last_descendant (s : Store) (rootId : Nat) : Option Note :=
  let grandchildren := s.notes.filter (fun n =>
    match n.parent with
    | some p =>
        match get_note s p with
        | some q => q.parent = some rootId
        | none => false
    | none => false)
  match maxIdRow grandchildren with
  | some row => some row
  | none => maxIdRow (s.notes.filter (fun n => n.parent = some rootId))

/-- `is_clipboard_note(note_id)`: walk up at most 10 parents looking for a
root (`parent_id IS NULL`) titled `"Буфер обмена"`; `0`/`None` ids are falsy. -/
def is_clipboard_note_go (s : Store) : Nat → Nat → Bool
  | 0, _ => false
  | fuel + 1, currentId =>
    match get_note s currentId with
    | none => false
    | some row =>
        if row.title = "Буфер обмена" && row.parent = none then true
        else
          match row.parent with
          | none => false
          | some p => is_clipboard_note_go s fuel p

def is_clipboard_note (s : Store) (noteId : Nat) : Bool :=
  if noteId = 0 then false else is_clipboard_note_go s 10 noteId

/-- `get_root_branch_name(note_id)`: walk up at most 10 parents and return the
root's title. -/
def get_root_branch_name_go (s : Store) : Nat → Nat → Option String
  | 0, _ => none
  | fuel + 1, currentId =>
    match get_note s currentId with
    | none => none
    | some row =>
        match row.parent with
        | none => some row.title
        | some p => get_root_branch_name_go s fuel p

def get_root_branch_name (s : Store) (noteId : Nat) : Option String :=
  if noteId = 0 then none else get_root_branch_name_go s 10 noteId

/-- The title-collection loop of `get_note_path` (`for _ in range(20)`),
appending titles leaf-to-root exactly as the Python loop does. -/
def get_note_path_go (s : Store) : Nat → Nat → List String → List String
  | 0, _, acc => acc
  | fuel + 1, currentId, acc =>
    match get_note s currentId with
    | none => acc
    | some row =>
        match row.parent with
        | none => acc ++ [row.title]
        | some p => get_note_path_go s fuel p (acc ++ [row.title])

/-- `get_note_path(note_id)`: at most 20 parent hops, titles reversed and
joined with `" / "`; `None` when the id is falsy or nothing was collected. -/
def get_note_path (s : Store) (noteId : Nat) : Option String :=
  if noteId = 0 then none
  else
    let parts := (get_note_path_go s 20 noteId []).reverse
    if parts.isEmpty then none else some (strIntercalate " / " parts)

/-! ## Clipboard capture pipeline (`core/clipboard_monitor.py`)

Qt delivers the clipboard contents as up-to-three representations. The rich
markup is parsed by `QTextDocument` into ordered blocks of fragments; that
parse, image decoding and the wall clock are external boundaries, supplied
through `QtEnv`. An image fragment carries `none` when the referenced image
cannot be resolved (`img.isNull()` in the source). -/

inductive Frag where
  | text (s : String)
  | image (img : Option (List Nat))
deriving DecidableEq

abbrev Block := List Frag

/-- External Qt/clock boundary: `parseHtml` is `QTextDocument.setHtml`'s
fragment decomposition, `imageSize` is `QImage.fromData` (with `none` for a
null image), `dateStr` is `datetime.now().strftime("%y.%m.%d")`, `timeTitle`
is `strftime("%H:%M:%S")`, `attName` the `clip_<timestamp>.png` name. -/
structure QtEnv where
  parseHtml : String → List Block
  imageSize : List Nat → Option (Nat × Nat)
  dateStr : String
  timeTitle : String
  attName : String
  now : Nat

/-- The representations available on one clipboard-change event.
`image` is the PNG encoding of a non-null `clipboard.image()`. -/
structure MimeData where
  text : Option String
  image : Option (List Nat)
  html : Option String
deriving DecidableEq

/-- `ClipboardMonitor` instance state: the repository plus the in-memory
`last_text` / `last_image_data` fields (which, notably, the duplicate check
never reads). -/
structure Monitor where
  store : Store
  lastText : String
  lastImageData : List Nat
deriving DecidableEq

/-- `_get_or_create_clipboard_root`. -/
def get_or_create_clipboard_root (s : Store) (now : Nat) : Store × Nat :=
  match get_note_by_title s "Буфер обмена" none with
  | none => create_note s none "Буфер обмена" now
  | some root => (s, root.id)

/-- `_get_or_create_date_node(parent_id)`. -/
def get_or_create_date_node (s : Store) (parentId : Nat) (env : QtEnv) : Store × Nat :=
  match get_note_by_title s env.dateStr (some parentId) with
  | none => create_note s (some parentId) env.dateStr env.now
  | some d => (s, d.id)

/-- `_generate_note_title(text_content, image_data, has_html)`: first
meaningful line of the text (stripped, not a separator), truncated to 80
characters and sanitized; else an image-dimension placeholder; else the
current time. (`has_html` is accepted and unused, as in the source.) -/
def generate_note_title (env : QtEnv) (textContent : String) (imageData : List Nat)
    (hasHtml : Bool) : String :=
  let _ := hasHtml
  if textContent ≠ "" then
    match (pySplitLines textContent).find? (fun line =>
        let clean := pyStrip line
        clean ≠ "" && clean ≠ "---" && clean ≠ "***" && clean ≠ "___" && clean ≠ "===") with
    | some line =>
        let title := sanitizeTitle ((pyStrip line).take 80)
        if title ≠ "" then title else env.timeTitle
    | none => env.timeTitle
  else if imageData ≠ [] then
    match env.imageSize imageData with
    | some wh => "Image " ++ toString wh.1 ++ "x" ++ toString wh.2 ++ " PNG"
    | none => "Image"
  else env.timeTitle

/-- `_is_duplicate(text_content, image_data)`: compares against the committed
last entry under the clipboard branch — text against the plain-text
projection of the stored body, else (imageonly payloads) raw bytes against
the first stored attachment. May create the clipboard root as a side effect. -/
def is_duplicate (s : Store) (textContent : String) (imageData : List Nat)
    (now : Nat) : Store × Bool :=
  let r := get_or_create_clipboard_root s now
  match get_last_descendant r.1 r.2 with
  | none => (r.1, false)
  | some lastNote =>
      let bodyHtml := lastNote.body.getD ""
      if textContent ≠ "" && textContent = pyStrip (plainOfHtml bodyHtml) then
        (r.1, true)
      else if imageData ≠ [] && textContent = "" then
        match get_attachments r.1 lastNote.id with
        | [] => (r.1, false)
        | att :: _ => if imageData = att.bytes then (r.1, true) else (r.1, false)
      else (r.1, false)

/-- The `<img src="noteimg://<id>" />` reference the pipeline writes. -/
def imgTag (attId : Nat) : String :=
  "<img src=\"noteimg://" ++ toString attId ++ "\" />"

/-- One fragment step of `_process_mixed_content`'s inner loop: resolvable
images are persisted as attachments and referenced; text is escaped; content
is flagged for images and for non-whitespace text. -/
def process_frag (noteId : Nat) (env : QtEnv)
    (acc : Store × List String × Bool) (f : Frag) : Store × List String × Bool :=
  match f with
  | .image none => acc
  | .image (some bytes) =>
      let r := add_attachment acc.1 noteId env.attName bytes "image/png"
      (r.1, acc.2.1 ++ [imgTag r.2], true)
  | .text t =>
      if t ≠ "" then (acc.1, acc.2.1 ++ [htmlEscape t], acc.2.2 || (pyStrip t ≠ ""))
      else acc

/-- `_process_mixed_content(note_id, html_content)` over the parsed document:
per-block fragment concatenation, blocks joined with `<br/>`; returns the
final markup and whether anything substantive was saved. -/
def process_mixed_content (s : Store) (noteId : Nat) (doc : List Block)
    (env : QtEnv) : Store × String × Bool :=
  let folded := doc.foldl (fun (acc : Store × List String × Bool) block =>
      let b := block.foldl (process_frag noteId env) (acc.1, [], false)
      (b.1,
       (if b.2.1 ≠ [] then acc.2.1 ++ [strJoin b.2.1] else acc.2.1),
       acc.2.2 || b.2.2))
    (s, [], false)
  (folded.1, strIntercalate "<br/>" folded.2.1, folded.2.2)

/-- The `<pre>` wrapper used for text-only captures. -/
def preWrap (inner : String) : String :=
  "<pre style=\"white-space: pre-wrap; font-family: inherit; margin: 0;\">" ++
    inner ++ "</pre>"

/-- `_on_clipboard_changed`: sample → classify → duplicate check →
materialize `Clipboard → date → leaf` → populate by priority (rich markup
with content wins; else raw image with optional leading text; else text) →
commit, or delete the just-created leaf when nothing usable was produced.
Returns the new monitor state and the emitted leaf id, if any. -/
def on_clipboard_changed (m : Monitor) (p : MimeData) (env : QtEnv) :
    Monitor × Option Nat :=
  let textContent := match p.text with | some t => pyStrip t | none => ""
  let hasText := textContent ≠ ""
  let imageData := p.image.getD []
  let hasRawImage := imageData ≠ []
  let htmlContent := p.html.getD ""
  let hasHtml := htmlContent ≠ ""
  if !hasText && !hasRawImage && !hasHtml then (m, none)
  else
    let d := is_duplicate m.store textContent imageData env.now
    if d.2 then ({ m with store := d.1 }, none)
    else
      let r1 := get_or_create_clipboard_root d.1 env.now
      let r2 := get_or_create_date_node r1.1 r1.2 env
      let noteTitle := generate_note_title env textContent imageData hasHtml
      let r3 := create_note r2.1 (some r2.2) noteTitle env.now
      let leafId := r3.2
      let afterHtml : Store × String × Bool :=
        if hasHtml then
          let pr := process_mixed_content r3.1 leafId (env.parseHtml htmlContent) env
          if pr.2.2 then (pr.1, pr.2.1, true) else (pr.1, "", false)
        else (r3.1, "", false)
      let afterImage : Store × String × Bool :=
        if !afterHtml.2.2 && hasRawImage then
          let ra := add_attachment afterHtml.1 leafId "clipboard_image.png" imageData
            "image/png"
          if hasText then
            (ra.1, htmlEscape textContent ++ "<br/>" ++ imgTag ra.2, true)
          else (ra.1, imgTag ra.2, true)
        else afterHtml
      let afterText : Store × String × Bool :=
        if !afterImage.2.2 && hasText then
          (afterImage.1, preWrap (htmlEscape textContent), true)
        else afterImage
      if afterText.2.2 && afterText.2.1 ≠ "" then
        let s' := save_note afterText.1 leafId noteTitle afterText.2.1 0 env.now
        ({ store := s', lastText := textContent, lastImageData := imageData },
         some leafId)
      else
        ({ m with store := delete_note afterText.1 leafId }, none)

/-! ## Presentation state (`core/main_window.py`, `core/note_editor.py`)

The editor buffer and the tree widget are modelled by their observable data:
the buffer's markup/cursor/read-only flag, the tree as the list of note rows
it was last built from, and the current tree item as that note's id.
`setHtml`/`toHtml` round-tripping through Qt is modelled as the identity on
the stored markup. -/

structure EditorState where
  currentNoteId : Option Nat
  html : String
  cursorPos : Nat
  readOnly : Bool
deriving DecidableEq

/-- `NoteEditor.set_current_note_id(note_id)`: records the id and makes the
editor read-only exactly for clipboard-branch notes (`repoPresent` models
`self.repo` being set; `0`/`None` ids are falsy). -/
def editor_set_current_note_id (repoPresent : Bool) (s : Store) (e : EditorState)
    (noteId : Option Nat) : EditorState :=
  let e1 := { e with currentNoteId := noteId }
  match noteId with
  | some nid =>
      if repoPresent && nid ≠ 0 then
        { e1 with readOnly := is_clipboard_note s nid }
      else { e1 with readOnly := false }
  | none => { e1 with readOnly := false }

/-- `MainWindow` state: repository, loaded-note id, tree snapshot, current
tree item, editor, the two re-entrancy flags, and the mixin's
`_branch_positions` / `_last_active_branch`. -/
structure WinState where
  store : Store
  currentNoteId : Option Nat
  selectedItem : Option Nat
  treeNotes : List Note
  editor : EditorState
  isReloadingTree : Bool
  isSwitchingNote : Bool
  branchPositions : List (String × Nat)
  lastActiveBranch : Option String
deriving DecidableEq

/-- `item.text(0)` for the tree item of a note id. -/
def treeItemTitle (tree : List Note) (noteId : Nat) : String :=
  match tree.find? (fun n => n.id = noteId) with
  | some n => n.title
  | none => ""

/-- `MainWindow._save_editor_content(note_id, title)`: writes the editor
buffer through `save_note`, resolving a missing title from the tree, then the
store. -/
def save_editor_content (w : WinState) (noteId : Nat) (title : Option String)
    (now : Nat) : WinState :=
  if noteId = 0 then w
  else
    let t :=
      match title with
      | some t => t
      | none =>
          match w.treeNotes.find? (fun n => n.id = noteId) with
          | some item => item.title
          | none =>
              match get_note w.store noteId with
              | some row => row.title
              | none => ""
    { w with store := save_note w.store noteId t w.editor.html w.editor.cursorPos now }

/-- `MainWindow.save_current_note`: flush only when the editor is bound to
the loaded note; the title comes from the current tree item when it is that
note. -/
def save_current_note (w : WinState) (now : Nat) : WinState :=
  match w.currentNoteId with
  | none => w
  | some cur =>
      if cur = 0 then w
      else if w.editor.currentNoteId ≠ some cur then w
      else
        let title :=
          if w.selectedItem = some cur then
            match w.treeNotes.find? (fun n => n.id = cur) with
            | some item => some item.title
            | none => none
          else none
        save_editor_content w cur title now

/-- `MainWindow.on_note_selected(current, previous)`: no-op while a tree
reload is in progress; otherwise flush the previous note (when it is the
loaded one), then bind and load the newly selected note. -/
def on_note_selected (w : WinState) (currentItem previousItem : Option Nat)
    (now : Nat) : WinState :=
  if w.isReloadingTree then w
  else
    let w1 :=
      match previousItem with
      | some pid =>
          if pid ≠ 0 && w.currentNoteId = some pid then
            save_editor_content w pid (some (treeItemTitle w.treeNotes pid)) now
          else w
      | none => w
    match currentItem with
    | none =>
        { w1 with
          currentNoteId := none,
          editor := editor_set_current_note_id true w1.store w1.editor none }
    | some noteId =>
        let w2 :=
          { w1 with
            currentNoteId := some noteId,
            editor := editor_set_current_note_id true w1.store w1.editor (some noteId) }
        let w3 := { w2 with store := set_state w2.store "last_opened_note_id" (toString noteId) }
        match get_note w3.store noteId with
        | none =>
            { w3 with editor := { w3.editor with html := "" }, isSwitchingNote := false }
        | some row =>
            let body := row.body.getD ""
            let newCursor :=
              match row.cursorPos with
              | some cp => Nat.min cp (plainOfHtml body).length
              | none => w3.editor.cursorPos
            { w3 with
              editor := { w3.editor with html := body, cursorPos := newCursor },
              isSwitchingNote := false }

/-- `MainWindow.load_notes_tree`: sets the reload flag, rebuilds the tree from
the store and restores the selection, then clears the flag. `events` are the
selection-change notifications delivered while the rebuild runs (each handled
by `on_note_selected`). -/
def load_notes_tree (w : WinState) (events : List (Option Nat × Option Nat))
    (now : Nat) : WinState :=
  let w1 := { w with isReloadingTree := true }
  let w2 := events.foldl (fun acc ev => on_note_selected acc ev.1 ev.2 now) w1
  let newTree := w2.store.notes
  let newSel :=
    match w2.selectedItem with
    | some sel => if newTree.any (fun n => n.id = sel) then some sel else none
    | none => none
  { w2 with treeNotes := newTree, selectedItem := newSel, isReloadingTree := false }

/-- `MainWindow._select_note_by_id(note_id)`: make the note's tree item
current, which (when the item changes) fires `on_note_selected`. -/
def select_note_by_id (w : WinState) (noteId : Nat) (now : Nat) : WinState :=
  match w.treeNotes.find? (fun n => n.id = noteId) with
  | none => w
  | some _ =>
      if w.selectedItem = some noteId then w
      else
        let prev := w.selectedItem
        let w1 := { w with selectedItem := some noteId }
        on_note_selected w1 (some noteId) prev now

/-- `MainWindow._get_root_branch_name(item)`'s tree walk: climb `parent()`
links while the parent item exists (a parent exists in the built tree exactly
when the parent id resolved during `load_notes_tree`). Fuel covers any
acyclic tree. -/
def ui_root_branch_go (tree : List Note) : Nat → Nat → String
  | 0, currentId =>
      match tree.find? (fun n => n.id = currentId) with
      | some n => n.title
      | none => ""
  | fuel + 1, currentId =>
      match tree.find? (fun n => n.id = currentId) with
      | none => ""
      | some n =>
          match n.parent with
          | none => n.title
          | some p =>
              if tree.any (fun m => m.id = p) then ui_root_branch_go tree fuel p
              else n.title

/-- `MainWindow._get_root_branch_name(item)`: `"Текущие"` when there is no
current item. -/
def ui_get_root_branch_name (tree : List Note) (item : Option Nat) : String :=
  match item with
  | none => "Текущие"
  | some nid => ui_root_branch_go tree (tree.length + 1) nid

/-- `self._branch_positions[key] = value` (Python dict update). -/
def posSet (ps : List (String × Nat)) (k : String) (v : Nat) : List (String × Nat) :=
  (ps.filter (fun kv => !(kv.1 = k : Bool))) ++ [(k, v)]

/-- `self._branch_positions.get(key)`. -/
def posGet (ps : List (String × Nat)) (k : String) : Option Nat :=
  (ps.find? (fun kv => kv.1 = k)).map (fun kv => kv.2)

/-- The fixed cycle of `BranchControlMixin`. -/
def branchCycle : List String := ["Текущие", "Буфер обмена", "Избранное"]

/-- `BranchControlMixin.toggle_current_clipboard_branch`: flush, remember the
position in the branch being left, advance in the fixed cycle, and select the
remembered position of the target branch when still valid, else its most
recent leaf, else its (possibly just created) root. -/
def toggle_current_clipboard_branch (w : WinState) (now : Nat) : WinState :=
  let w1 := save_current_note w now
  let currentBranch := ui_get_root_branch_name w1.treeNotes w1.selectedItem
  let w2 :=
    match w1.currentNoteId with
    | some c =>
        if currentBranch ≠ "" && c ≠ 0 then
          { w1 with branchPositions := posSet w1.branchPositions currentBranch c }
        else w1
    | none => w1
  let targetBranch :=
    match branchCycle.indexOf? currentBranch with
    | some i => branchCycle.getD ((i + 1) % branchCycle.length) "Текущие"
    | none => branchCycle.getD 0 "Текущие"
  let w6 :=
    match get_note_by_title w2.store targetBranch none with
    | none =>
        let r := create_note w2.store none targetBranch now
        let w3 := { w2 with store := r.1 }
        let w4 := load_notes_tree w3 [] now
        select_note_by_id w4 r.2 now
    | some root =>
        let savedNoteId := posGet w2.branchPositions targetBranch
        let noteExists :=
          match savedNoteId with
          | some sid =>
              sid ≠ 0 && (get_note w2.store sid).isSome &&
                get_root_branch_name w2.store sid = some targetBranch
          | none => false
        if noteExists then
          select_note_by_id w2 (savedNoteId.getD 0) now
        else
          match get_last_descendant w2.store root.id with
          | some lastNote => select_note_by_id w2 lastNote.id now
          | none => select_note_by_id w2 root.id now
  { w6 with lastActiveBranch := some targetBranch }

/-! ## Mixin note actions (`core/ui/mixins/note_action_mixin.py`) -/

/-- Digits of a `noteimg://(\d+)` match, as a number. -/
def digitsToNat (ds : List Char) : Nat :=
  ds.foldl (fun a c => a * 10 + (c.toNat - 48)) 0

/-- `id_map.get(old_id)`. -/
def idMapGet (m : List (Nat × Nat)) (k : Nat) : Option Nat :=
  (m.find? (fun kv => kv.1 = k)).map (fun kv => kv.2)

/-- `re.sub(r"noteimg://(\d+)", _repl, html)`: left-to-right scan; a mapped
id is rewritten, an unmapped (or falsy) one left as matched. -/
def rewriteNoteimgGo (idMap : List (Nat × Nat)) : List Char → List Char
  | [] => []
  | c :: r =>
    if (c :: r).take 10 = "noteimg://".data &&
        ((c :: r).drop 10).takeWhile Char.isDigit ≠ [] then
      let ds := ((c :: r).drop 10).takeWhile Char.isDigit
      let rest := ((c :: r).drop 10).dropWhile Char.isDigit
      (match idMapGet idMap (digitsToNat ds) with
       | some newId =>
           if newId ≠ 0 then ("noteimg://" ++ toString newId).data
           else "noteimg://".data ++ ds
       | none => "noteimg://".data ++ ds) ++ rewriteNoteimgGo idMap rest
    else c :: rewriteNoteimgGo idMap r
termination_by l => l.length
decreasing_by
  · have h1 : (((c :: r).drop 10).dropWhile Char.isDigit).length ≤
        ((c :: r).drop 10).length := (List.dropWhile_sublist _).length_le
    have h2 := List.length_drop 10 (c :: r)
    simp only [List.length_cons] at h2 ⊢
    omega
  · simp

/-- `NoteActionMixin._clone_attachments_and_rewrite_html(source_note_ids,
target_note_id, html)`: clone every image attachment of the source notes onto
the target note and rewrite the `noteimg://` references through the id map. -/
def clone_attachments_and_rewrite_html (s : Store) (sourceNoteIds : List Nat)
    (targetNoteId : Nat) (html : String) : Store × String :=
  if html = "" || sourceNoteIds.isEmpty || targetNoteId = 0 then (s, html)
  else
    let cloned := sourceNoteIds.foldl
      (fun (acc : Store × List (Nat × Nat)) srcId =>
        if srcId = 0 then acc
        else
          (get_attachments acc.1 srcId).foldl
            (fun (acc2 : Store × List (Nat × Nat)) att =>
              if att.bytes.isEmpty then acc2
              else
                let safeName := if att.name ≠ "" then att.name else "image.png"
                let safeMime := if att.mime ≠ "" then att.mime else "image/png"
                let r := add_attachment acc2.1 targetNoteId safeName att.bytes safeMime
                (r.1, acc2.2 ++ [(att.id, r.2)]))
            acc)
      (s, ([] : List (Nat × Nat)))
    if cloned.2.isEmpty then (cloned.1, html)
    else (cloned.1, ⟨rewriteNoteimgGo cloned.2 html.data⟩)

/-- `NoteActionMixin.add_to_favorites`: flush, read the current note's stored
row, find-or-create the `"Избранное"` root, create a copy note there and —
when the body is non-empty — save the source body into it verbatim (no
attachment cloning), then reload the tree. -/
def add_to_favorites (w : WinState) (now : Nat) : WinState :=
  match w.currentNoteId with
  | none => w
  | some cur =>
      if cur = 0 then w
      else
        let w1 := save_current_note w now
        match get_note w1.store cur with
        | none => w1
        | some row =>
            let fav :=
              match get_note_by_title w1.store "Избранное" none with
              | none => create_note w1.store none "Избранное" now
              | some r => (w1.store, r.id)
            let created := create_note fav.1 (some fav.2) row.title now
            let s4 :=
              if row.body.getD "" ≠ "" then
                save_note created.1 created.2 row.title (row.body.getD "") 0 now
              else created.1
            load_notes_tree { w1 with store := s4 } [] now

/-! ## C8: no-op save -/

/-- C8: `save_note` with a title, body and cursor position identical to the
stored row (with `NULL` body/cursor read back as `""`/`0`, as the source
does) leaves the store — in particular the row's `updated_at` — unchanged. -/
theorem C8_save_note_noop (s : Store) (noteId : Nat) (row : Note) (now : Nat)
    (h : get_note s noteId = some row) :
    save_note s noteId row.title (row.body.getD "") (row.cursorPos.getD 0) now = s := by
  unfold save_note
  rw [h]
  simp

def c8Note : Note :=
  { id := 1, parent := none, title := "a", body := some "b", cursorPos := some 2,
    updatedAt := 7 }

def c8Store : Store :=
  { notes := [c8Note], attachments := [], state := [], nextNoteId := 2,
    nextAttId := 1, fkEnabled := true }

/-- C8 witness: the no-op save at a concrete store and row. -/
theorem C8_save_note_noop_witness :
    get_note c8Store 1 = some c8Note ∧
      save_note c8Store 1 "a" "b" 2 99 = c8Store :=
  ⟨by decide, C8_save_note_noop c8Store 1 c8Note 99 (by decide)⟩

/-! ## C9: bounded path traversal -/

theorem get_note_path_go_length (s : Store) (fuel : Nat) :
    ∀ cur acc, (get_note_path_go s fuel cur acc).length ≤ acc.length + fuel := by
  induction fuel with
  | zero => intro cur acc; simp [get_note_path_go]
  | succ f ih =>
      intro cur acc
      unfold get_note_path_go
      cases h : get_note s cur with
      | none => simp
      | some row =>
          cases hp : row.parent with
          | none =>
              simp only [hp, List.length_append, List.length_cons, List.length_nil]
              omega
          | some p =>
              simp only [hp]
              have h2 := ih p (acc ++ [row.title])
              simp only [List.length_append, List.length_cons, List.length_nil] at h2 ⊢
              omega

def c9CycleStore : Store :=
  { notes := [{ id := 1, parent := some 1, title := "t", body := none,
                cursorPos := none, updatedAt := 0 }],
    attachments := [], state := [], nextNoteId := 2, nextAttId := 1,
    fkEnabled := true }

/-- C9: `get_note_path` is a bounded traversal: for every store and id it
returns the join of at most 20 collected titles (so it cannot hang), and on a
self-parented cycle it returns after exactly the 20-hop bound with the title
repeated. -/
theorem C9_get_note_path_bounded :
    (∀ (s : Store) (noteId : Nat), ∃ parts : List String,
        parts.length ≤ 20 ∧
          get_note_path s noteId =
            (if parts.isEmpty then none else some (strIntercalate " / " parts))) ∧
      get_note_path c9CycleStore 1 =
        some (strIntercalate " / " (List.replicate 20 "t")) := by
  constructor
  · intro s noteId
    by_cases h : noteId = 0
    · exact ⟨[], by simp, by simp [get_note_path, h]⟩
    · refine ⟨(get_note_path_go s 20 noteId []).reverse, ?_, by simp [get_note_path, h]⟩
      simpa using get_note_path_go_length s 20 noteId []
  · decide

/-! ## C10: clipboard notes are read-only in the editor -/

/-- C10: binding the editor to a note sets its read-only flag exactly when
`is_clipboard_note` holds — the walk of at most 10 parent hops reaching a
root titled `"Буфер обмена"` — and clears it for every other binding
(including unbinding). -/
theorem C10_editor_readonly (s : Store) (e : EditorState) (noteId : Option Nat) :
    (editor_set_current_note_id true s e noteId).readOnly =
      (match noteId with
       | some nid => is_clipboard_note s nid
       | none => false) := by
  cases noteId with
  | none => simp [editor_set_current_note_id]
  | some nid =>
      by_cases h : nid = 0
      · simp [editor_set_current_note_id, h, is_clipboard_note]
      · simp [editor_set_current_note_id, h]

/-! ## C1: reload suppression -/

theorem on_note_selected_reloading (w : WinState) (c p : Option Nat) (now : Nat)
    (h : w.isReloadingTree = true) : on_note_selected w c p now = w := by
  unfold on_note_selected
  simp [h]

theorem reload_fold_fixed (events : List (Option Nat × Option Nat)) (now : Nat) :
    ∀ w : WinState, w.isReloadingTree = true →
      events.foldl (fun acc ev => on_note_selected acc ev.1 ev.2 now) w = w := by
  induction events with
  | nil => intro w _; rfl
  | cons e t ih =>
      intro w h
      rw [List.foldl_cons, on_note_selected_reloading w e.1 e.2 now h]
      exact ih w h

/-- C1: while `load_notes_tree` has the reload flag set, every
selection-change notification delivered to `on_note_selected` is discarded:
whatever the events, the reload writes nothing to the store and leaves the
loaded-note id exactly as it was. -/
theorem C1_reload_suppression (w : WinState)
    (events : List (Option Nat × Option Nat)) (now : Nat) :
    (load_notes_tree w events now).store = w.store ∧
      (load_notes_tree w events now).currentNoteId = w.currentNoteId := by
  simp only [load_notes_tree]
  rw [reload_fold_fixed events now { w with isReloadingTree := true } rfl]
  exact ⟨rfl, rfl⟩


/-! ## C2: cascade deletion -/

theorem childIdsOf_eq_nil_iff (s : Store) (ids : List Nat) :
    childIdsOf s ids = [] ↔
      ∀ n ∈ s.notes, ∀ p, n.parent = some p → p ∈ ids → n.id ∈ ids := by
  unfold childIdsOf
  rw [List.map_eq_nil_iff, List.filter_eq_nil_iff]
  constructor
  · intro h n hn p hp hpin
    have h1 := h n hn
    rw [hp] at h1
    by_contra hid
    apply h1
    simp only [Bool.and_eq_true, List.elem_iff, Bool.not_eq_true']
    refine ⟨hpin, ?_⟩
    rw [← Bool.not_eq_true]
    intro hc
    exact hid (List.elem_iff.mp hc)
  · intro h n hn
    cases hp : n.parent with
    | none => simp
    | some p =>
        simp only [Bool.and_eq_true, List.elem_iff, Bool.not_eq_true', not_and]
        intro hpin
        rw [Bool.not_eq_false, List.elem_iff]
        exact h n hn p hp hpin

theorem cascadeStep_subset (s : Store) (ids : List Nat) : ids ⊆ cascadeStep s ids :=
  List.subset_append_left _ _

theorem cascadeIter_subset (s : Store) (k : Nat) :
    ∀ ids, ids ⊆ cascadeIter s k ids := by
  induction k with
  | zero => intro ids; exact fun a h => h
  | succ n ih =>
      intro ids
      exact fun a h => ih (cascadeStep s ids) (cascadeStep_subset s ids h)

theorem cascadeIter_of_closed (s : Store) (k : Nat) :
    ∀ ids, childIdsOf s ids = [] → cascadeIter s k ids = ids := by
  induction k with
  | zero => intro ids _; rfl
  | succ n ih =>
      intro ids h
      show cascadeIter s n (cascadeStep s ids) = ids
      unfold cascadeStep
      rw [h, List.append_nil]
      exact ih ids h

theorem countP_lt_of_flip {α : Type} (l : List α) (p q : α → Bool)
    (hmono : ∀ a ∈ l, p a = true → q a = true) (a0 : α) (ha0 : a0 ∈ l)
    (hq : q a0 = true) (hp : p a0 = false) : l.countP p < l.countP q := by
  induction l with
  | nil => cases ha0
  | cons hd tl ih =>
      rw [List.countP_cons, List.countP_cons]
      rcases List.mem_cons.mp ha0 with heq | hmem
      · subst heq
        rw [hp, hq]
        have hmono2 : tl.countP p ≤ tl.countP q :=
          List.countP_mono_left (fun a ha => hmono a (List.mem_cons_of_mem _ ha))
        have e1 : (if (false : Bool) = true then 1 else 0) = 0 := rfl
        have e2 : (if (true : Bool) = true then 1 else 0) = 1 := rfl
        rw [e1, e2]
        omega
      · have hlt := ih (fun a ha => hmono a (List.mem_cons_of_mem _ ha)) hmem
        have hhd : (if p hd = true then 1 else 0) ≤ (if q hd = true then 1 else 0) := by
          by_cases hph : p hd = true
          · rw [if_pos hph, if_pos (hmono hd (List.mem_cons_self _ _) hph)]
          · rw [if_neg hph]
            exact Nat.zero_le _
        omega

theorem cascadeIter_closed_of_meas (s : Store) :
    ∀ (k : Nat) (ids : List Nat),
      s.notes.countP (fun n => !ids.contains n.id) ≤ k →
      childIdsOf s (cascadeIter s k ids) = [] := by
  intro k
  induction k with
  | zero =>
      intro ids h
      have h0 : s.notes.countP (fun n => !ids.contains n.id) = 0 := Nat.le_zero.mp h
      have hall := List.countP_eq_zero.mp h0
      show childIdsOf s ids = []
      rw [childIdsOf_eq_nil_iff]
      intro n hn p _ _
      have hx := hall n hn
      simp only [Bool.not_eq_true', Bool.not_eq_false] at hx
      exact List.elem_iff.mp hx
  | succ m ih =>
      intro ids h
      by_cases hc : childIdsOf s ids = []
      · show childIdsOf s (cascadeIter s m (cascadeStep s ids)) = []
        have hstep : cascadeStep s ids = ids := by
          unfold cascadeStep; rw [hc, List.append_nil]
        rw [hstep, cascadeIter_of_closed s m ids hc]
        exact hc
      · show childIdsOf s (cascadeIter s m (cascadeStep s ids)) = []
        apply ih
        obtain ⟨cid, hcid⟩ : ∃ cid, cid ∈ childIdsOf s ids := by
          cases hh : childIdsOf s ids with
          | nil => exact absurd hh hc
          | cons x xs => exact ⟨x, List.mem_cons_self _ _⟩
        obtain ⟨n0, hn0mem, hn0id⟩ : ∃ n0, n0 ∈ s.notes.filter (fun n =>
            match n.parent with
            | some p => ids.contains p && !ids.contains n.id
            | none => false) ∧ n0.id = cid := by
          unfold childIdsOf at hcid
          obtain ⟨n0, hmem, hid⟩ := List.mem_map.mp hcid
          exact ⟨n0, hmem, hid⟩
        have hn0 := List.mem_filter.mp hn0mem
        have hn0pred := hn0.2
        have hn0notes := hn0.1
        have hn0notin : ids.contains n0.id = false := by
          cases hpar : n0.parent with
          | none => rw [hpar] at hn0pred; cases hn0pred
          | some p =>
              rw [hpar] at hn0pred
              simp only [Bool.and_eq_true, Bool.not_eq_true'] at hn0pred
              exact hn0pred.2
        have hn0in : (cascadeStep s ids).contains n0.id = true := by
          rw [List.elem_iff]
          apply List.mem_append_right
          rw [← hn0id] at hcid
          exact hcid
        have hstrict : s.notes.countP (fun n => !(cascadeStep s ids).contains n.id) <
            s.notes.countP (fun n => !ids.contains n.id) := by
          refine countP_lt_of_flip s.notes
            (fun n => !(cascadeStep s ids).contains n.id)
            (fun n => !ids.contains n.id) ?_ n0 hn0notes ?_ ?_
          · intro a _ hpa
            simp only [Bool.not_eq_true'] at hpa ⊢
            by_contra hcon
            rw [Bool.not_eq_false] at hcon
            have hsub := cascadeStep_subset s ids (List.elem_iff.mp hcon)
            have htrue : (cascadeStep s ids).contains a.id = true :=
              List.elem_iff.mpr hsub
            rw [htrue] at hpa
            cases hpa
          · show (!(ids.contains n0.id)) = true
            rw [hn0notin]
            rfl
          · show (!((cascadeStep s ids).contains n0.id)) = false
            rw [hn0in]
            rfl
        omega

theorem cascadeIds_closed (s : Store) (noteId : Nat) :
    childIdsOf s (cascadeIds s noteId) = [] ∨ cascadeIds s noteId = [] := by
  unfold cascadeIds
  cases h : get_note s noteId with
  | none => right; rfl
  | some row =>
      left
      exact cascadeIter_closed_of_meas s s.notes.length [noteId]
        (List.countP_le_length _)

theorem cascadeIds_seed (s : Store) (noteId : Nat)
    (h : (get_note s noteId).isSome) : noteId ∈ cascadeIds s noteId := by
  unfold cascadeIds
  cases hg : get_note s noteId with
  | none => rw [hg] at h; cases h
  | some row =>
      exact cascadeIter_subset s s.notes.length [noteId] (List.mem_singleton.mpr rfl)

theorem contains_iff_mem_nat (l : List Nat) (a : Nat) : l.contains a = true ↔ a ∈ l :=
  List.elem_iff

/-- C2 (amended): with foreign-key enforcement in effect on the connection —
which `__init__` switches on — `delete_note(id)` removes the note row and,
through the engine's recursive cascade, every descendant and every attachment
owned by the deleted subtree: afterwards no note row has an id or a parent
reference in the subtree's id set and no attachment row references it. -/
theorem C2_delete_note_cascade (s : Store) (noteId : Nat)
    (hfk : s.fkEnabled = true) :
    (∀ n ∈ (delete_note s noteId).notes,
        n.id ∉ cascadeIds s noteId ∧
          ∀ p, n.parent = some p → p ∉ cascadeIds s noteId) ∧
      (∀ a ∈ (delete_note s noteId).attachments,
          a.noteId ∉ cascadeIds s noteId) ∧
      ((get_note s noteId).isSome →
        noteId ∈ cascadeIds s noteId ∧
          get_note (delete_note s noteId) noteId = none) := by
  have hdel : delete_note s noteId =
      { s with
        notes := s.notes.filter (fun n => !(cascadeIds s noteId).contains n.id),
        attachments := s.attachments.filter
          (fun a => !(cascadeIds s noteId).contains a.noteId) } := by
    unfold delete_note
    rw [hfk]
    simp
  refine ⟨?_, ?_, ?_⟩
  · intro n hn
    rw [hdel] at hn
    have hm := List.mem_filter.mp hn
    have hid : (cascadeIds s noteId).contains n.id = false := by
      have h2 := hm.2
      simpa using h2
    constructor
    · intro hin
      have ht := (contains_iff_mem_nat _ _).mpr hin
      rw [ht] at hid
      cases hid
    · intro p hp hpin
      rcases cascadeIds_closed s noteId with hclosed | hnil
      · have hinid := (childIdsOf_eq_nil_iff s _).mp hclosed n hm.1 p hp hpin
        have ht := (contains_iff_mem_nat _ _).mpr hinid
        rw [ht] at hid
        cases hid
      · rw [hnil] at hpin
        cases hpin
  · intro a ha
    rw [hdel] at ha
    have hm := List.mem_filter.mp ha
    have hid : (cascadeIds s noteId).contains a.noteId = false := by
      have h2 := hm.2
      simpa using h2
    intro hin
    have ht := (contains_iff_mem_nat _ _).mpr hin
    rw [ht] at hid
    cases hid
  · intro hrow
    refine ⟨cascadeIds_seed s noteId hrow, ?_⟩
    rw [hdel]
    show List.find? _ _ = none
    apply List.find?_eq_none.mpr
    intro x hx
    have hm := List.mem_filter.mp hx
    have hid : (cascadeIds s noteId).contains x.id = false := by
      have h2 := hm.2
      simpa using h2
    simp only [decide_eq_true_eq]
    intro heq
    have hseed := cascadeIds_seed s noteId hrow
    have ht := (contains_iff_mem_nat _ _).mpr hseed
    rw [heq, ht] at hid
    cases hid

def c2Store : Store :=
  { notes :=
      [{ id := 1, parent := none, title := "root", body := some "", cursorPos := some 0,
         updatedAt := 0 },
       { id := 2, parent := some 1, title := "child", body := some "", cursorPos := some 0,
         updatedAt := 0 },
       { id := 3, parent := some 2, title := "grandchild", body := some "",
         cursorPos := some 0, updatedAt := 0 }],
    attachments :=
      [{ id := 1, noteId := 3, kind := "image", name := "a.png", bytes := [1, 2],
         mime := "image/png" }],
    state := [], nextNoteId := 4, nextAttId := 2, fkEnabled := true }

/-- C2 witness: the amended cascade statement at a three-level subtree with an
attachment on the grandchild. -/
theorem C2_delete_note_cascade_witness :
    c2Store.fkEnabled = true ∧
      ((∀ n ∈ (delete_note c2Store 1).notes,
          n.id ∉ cascadeIds c2Store 1 ∧
            ∀ p, n.parent = some p → p ∉ cascadeIds c2Store 1) ∧
        (∀ a ∈ (delete_note c2Store 1).attachments,
            a.noteId ∉ cascadeIds c2Store 1) ∧
        ((get_note c2Store 1).isSome →
          1 ∈ cascadeIds c2Store 1 ∧
            get_note (delete_note c2Store 1) 1 = none)) :=
  ⟨by decide, C2_delete_note_cascade c2Store 1 (by decide)⟩

def c2StoreNoFk : Store :=
  { notes :=
      [{ id := 1, parent := none, title := "root", body := some "", cursorPos := some 0,
         updatedAt := 0 },
       { id := 2, parent := some 1, title := "child", body := some "", cursorPos := some 0,
         updatedAt := 0 }],
    attachments :=
      [{ id := 1, noteId := 2, kind := "image", name := "a.png", bytes := [1],
         mime := "image/png" }],
    state := [], nextNoteId := 3, nextAttId := 2, fkEnabled := false }

/-- C2 counterexample to the claim as stated: without the engine's cascade in
effect (foreign keys off, the very situation `__init__`'s `try/except`
tolerates), `delete_note` removes only the named row — the child row still
references the deleted note and its attachment row survives, because the code
issues no explicit recursive delete of its own. -/
theorem C2_counterexample :
    get_note (delete_note c2StoreNoFk 1) 1 = none ∧
      (delete_note c2StoreNoFk 1).notes.any (fun n => n.parent = some 1) = true ∧
      (delete_note c2StoreNoFk 1).attachments.length = 1 := by
  decide

/-! ## C6: order preservation of mixed-content extraction -/

/-- C6: extracting rich markup that parses to text `a`, then a resolvable
image, then text `b` (one block) produces, in order: the escaped text `a`,
one stored-image reference to the freshly persisted attachment, and the
escaped text `b` — and flags the capture as substantive. -/
theorem C6_order_preservation (s : Store) (noteId : Nat) (a b : String)
    (bs : List Nat) (env : QtEnv) (ha : a ≠ "") (hb : b ≠ "") :
    process_mixed_content s noteId [[Frag.text a, Frag.image (some bs), Frag.text b]] env =
      ({ s with
         attachments := s.attachments ++
           [{ id := s.nextAttId, noteId := noteId, kind := "image",
              name := env.attName, bytes := bs, mime := "image/png" }],
         nextAttId := s.nextAttId + 1 },
       htmlEscape a ++ imgTag s.nextAttId ++ htmlEscape b, true) := by
  unfold process_mixed_content
  simp only [List.foldl_cons, List.foldl_nil, process_frag, add_attachment, ha, hb,
    if_pos, ne_eq, not_false_eq_true, if_true, List.nil_append]
  simp [strJoin, strIntercalate]

def c6Store : Store :=
  { notes := [], attachments := [], state := [], nextNoteId := 1, nextAttId := 1,
    fkEnabled := true }

def c6Env : QtEnv :=
  { parseHtml := fun _ => [], imageSize := fun _ => none, dateStr := "25.01.01",
    timeTitle := "10:00:00", attName := "clip_1.png", now := 0 }

/-- C6 witness: the order-preservation equation at concrete texts and image
bytes. -/
theorem C6_order_preservation_witness :
    process_mixed_content c6Store 7 [[Frag.text "A", Frag.image (some [9]), Frag.text "B"]]
        c6Env =
      ({ c6Store with
         attachments := [{ id := 1, noteId := 7, kind := "image",
                           name := "clip_1.png", bytes := [9], mime := "image/png" }],
         nextAttId := 2 },
       htmlEscape "A" ++ imgTag 1 ++ htmlEscape "B", true) :=
  C6_order_preservation c6Store 7 "A" "B" [9] c6Env (by decide) (by decide)

/-! ## C3: clone-on-copy -/

def c3Body : String := "<img src=\"noteimg://1\" />"

def c3Store : Store :=
  { notes :=
      [{ id := 1, parent := none, title := "Буфер обмена", body := some "",
         cursorPos := some 0, updatedAt := 0 },
       { id := 2, parent := some 1, title := "25.01.01", body := some "",
         cursorPos := some 0, updatedAt := 0 },
       { id := 3, parent := some 2, title := "pic", body := some c3Body,
         cursorPos := some 0, updatedAt := 0 }],
    attachments :=
      [{ id := 1, noteId := 3, kind := "image", name := "clip.png", bytes := [5],
         mime := "image/png" }],
    state := [], nextNoteId := 4, nextAttId := 2, fkEnabled := true }

def c3Win : WinState :=
  { store := c3Store, currentNoteId := some 3, selectedItem := some 3,
    treeNotes := c3Store.notes,
    editor := { currentNoteId := some 3, html := c3Body, cursorPos := 0,
                readOnly := true },
    isReloadingTree := false, isSwitchingNote := false, branchPositions := [],
    lastActiveBranch := none }

/-- C3: evaluation at the failing input. `add_to_favorites` on a clipboard
note whose body holds one image reference creates the favorite copy with the
body copied verbatim and zero new attachments (the claim requires exactly one
cloned attachment and a rewritten reference); deleting the source note then
removes the only attachment, leaving the favorite's body pointing at an
attachment that no longer exists. -/
theorem C3_add_to_favorites_no_clone :
    get_attachments (add_to_favorites c3Win 50).store 5 = [] ∧
      (get_note (add_to_favorites c3Win 50).store 5).map (fun n => n.body.getD "") =
        some c3Body ∧
      (get_note (delete_note (add_to_favorites c3Win 50).store 3) 5).map
          (fun n => n.body.getD "") = some c3Body ∧
      get_attachment (delete_note (add_to_favorites c3Win 50).store 3) 1 = none := by
  decide

/-! ## String round-trip lemmas for the duplicate check -/

theorem plainChars_escCharsList (rest : List Char) :
    ∀ l : List Char, plainChars (escCharsList l ++ rest) = l ++ plainChars rest := by
  intro l
  induction l with
  | nil => simp [escCharsList]
  | cons c t ih =>
      have hexp : escCharsList (c :: t) ++ rest = escChar c ++ (escCharsList t ++ rest) := by
        simp [escCharsList]
      rw [hexp]
      by_cases h1 : c = Char.ofNat 38
      · subst h1
        rw [show escChar (Char.ofNat 38) = [Char.ofNat 38, 'a', 'm', 'p', ';'] from rfl]
        rw [show ([Char.ofNat 38, 'a', 'm', 'p', ';'] : List Char) ++ (escCharsList t ++ rest) =
          Char.ofNat 38 :: ('a' :: 'm' :: 'p' :: ';' :: (escCharsList t ++ rest)) from rfl]
        rw [plainChars]
        simp [entityStep, ih]
      · by_cases h2 : c = '<'
        · subst h2
          rw [show escChar '<' = [Char.ofNat 38, 'l', 't', ';'] from rfl]
          rw [show ([Char.ofNat 38, 'l', 't', ';'] : List Char) ++ (escCharsList t ++ rest) =
            Char.ofNat 38 :: ('l' :: 't' :: ';' :: (escCharsList t ++ rest)) from rfl]
          rw [plainChars]
          simp [entityStep, ih]
        · by_cases h3 : c = '>'
          · subst h3
            rw [show escChar '>' = [Char.ofNat 38, 'g', 't', ';'] from rfl]
            rw [show ([Char.ofNat 38, 'g', 't', ';'] : List Char) ++ (escCharsList t ++ rest) =
              Char.ofNat 38 :: ('g' :: 't' :: ';' :: (escCharsList t ++ rest)) from rfl]
            rw [plainChars]
            simp [entityStep, ih]
          · by_cases h4 : c = Char.ofNat 34
            · subst h4
              rw [show escChar (Char.ofNat 34) =
                [Char.ofNat 38, 'q', 'u', 'o', 't', ';'] from rfl]
              rw [show ([Char.ofNat 38, 'q', 'u', 'o', 't', ';'] : List Char) ++
                  (escCharsList t ++ rest) =
                Char.ofNat 38 :: ('q' :: 'u' :: 'o' :: 't' :: ';' ::
                  (escCharsList t ++ rest)) from rfl]
              rw [plainChars]
              simp [entityStep, ih]
            · by_cases h5 : c = Char.ofNat 39
              · subst h5
                rw [show escChar (Char.ofNat 39) =
                  [Char.ofNat 38, '#', 'x', '2', '7', ';'] from rfl]
                rw [show ([Char.ofNat 38, '#', 'x', '2', '7', ';'] : List Char) ++
                    (escCharsList t ++ rest) =
                  Char.ofNat 38 :: ('#' :: 'x' :: '2' :: '7' :: ';' ::
                    (escCharsList t ++ rest)) from rfl]
                rw [plainChars]
                simp [entityStep, ih]
              · have hesc : escChar c = [c] := by
                  simp [escChar, h1, h2, h3, h4, h5]
                rw [hesc]
                rw [show ([c] : List Char) ++ (escCharsList t ++ rest) =
                  c :: (escCharsList t ++ rest) from rfl]
                rw [plainChars]
                simp [h1, h2, ih]

theorem takeWhile_eq_self_of_all {α : Type} (p : α → Bool) (l : List α)
    (h : ∀ a ∈ l, p a = true) : l.takeWhile p = l := by
  induction l with
  | nil => rfl
  | cons x t ih =>
      rw [List.takeWhile_cons, if_pos (h x (List.mem_cons_self _ _))]
      rw [ih (fun a ha => h a (List.mem_cons_of_mem _ ha))]

theorem dropWhile_eq_nil_of_all {α : Type} (p : α → Bool) (l : List α)
    (h : ∀ a ∈ l, p a = true) : l.dropWhile p = [] := by
  induction l with
  | nil => rfl
  | cons x t ih =>
      rw [List.dropWhile_cons, if_pos (h x (List.mem_cons_self _ _))]
      exact ih (fun a ha => h a (List.mem_cons_of_mem _ ha))

theorem plainChars_tag (tag : List Char) (r : List Char)
    (hno : ∀ a ∈ tag, notGt a = true) :
    plainChars ('<' :: (tag ++ '>' :: r)) = tagEmit tag ++ plainChars r := by
  rw [plainChars]
  have htake : (tag ++ '>' :: r).takeWhile notGt = tag := by
    rw [List.takeWhile_append]
    rw [takeWhile_eq_self_of_all _ tag hno]
    simp [List.takeWhile_cons, notGt]
  have hdrop : (tag ++ '>' :: r).dropWhile notGt = '>' :: r := by
    rw [List.dropWhile_append]
    rw [dropWhile_eq_nil_of_all _ tag hno]
    simp [List.dropWhile_cons, notGt]
  rw [htake, hdrop]
  simp

def preOpenTag : List Char :=
  "pre style=\"white-space: pre-wrap; font-family: inherit; margin: 0;\"".data

def preCloseTag : List Char := "/pre".data

theorem plainOfHtml_preWrap_esc (tc : String) :
    plainOfHtml (preWrap (htmlEscape tc)) = tc := by
  show String.mk (plainChars (preWrap (htmlEscape tc)).data) = tc
  have hshape : (preWrap (htmlEscape tc)).data =
      '<' :: (preOpenTag ++ '>' :: (escCharsList tc.data ++
        ('<' :: (preCloseTag ++ '>' :: [])))) := by
    show ("<pre style=\"white-space: pre-wrap; font-family: inherit; margin: 0;\">" ++
        htmlEscape tc ++ "</pre>").data = _
    rw [String.data_append, String.data_append]
    show ('<' :: (preOpenTag ++ ['>'])) ++ escCharsList tc.data ++
        ('<' :: (preCloseTag ++ ['>'])) = _
    simp [List.append_assoc]
  rw [hshape]
  rw [plainChars_tag preOpenTag _ (by decide)]
  rw [plainChars_escCharsList]
  rw [plainChars_tag preCloseTag [] (by decide)]
  have h1 : tagEmit preOpenTag = [] := by decide
  have h2 : tagEmit preCloseTag = [] := by decide
  have h3 : plainChars [] = [] := by rw [plainChars]
  rw [h1, h2, h3]
  simp

theorem dropWhile_dropWhile {α : Type} (p : α → Bool) (l : List α) :
    (l.dropWhile p).dropWhile p = l.dropWhile p := by
  induction l with
  | nil => rfl
  | cons x t ih =>
      rw [List.dropWhile_cons]
      by_cases h : p x = true
      · rw [if_pos h]; exact ih
      · rw [if_neg h, List.dropWhile_cons, if_neg h]

theorem dropWhile_head_false {α : Type} (p : α → Bool) (m : List α)
    (hm : m.dropWhile p = m) :
    (((m.reverse.dropWhile p).reverse).dropWhile p) = (m.reverse.dropWhile p).reverse := by
  cases m with
  | nil => rfl
  | cons c t =>
      have hc : p c = false := by
        by_contra hcon
        rw [Bool.not_eq_false] at hcon
        have hx := hm
        rw [List.dropWhile_cons, if_pos hcon] at hx
        have hlen := congrArg List.length hx
        have hsub : (t.dropWhile p).length ≤ t.length := (List.dropWhile_sublist _).length_le
        simp at hlen
        omega
      have hcfalse : ¬ (p c = true) := by
        intro hx
        rw [hc] at hx
        cases hx
      rw [show (c :: t).reverse = t.reverse ++ [c] from by simp]
      rw [List.dropWhile_append]
      by_cases hemp : (t.reverse.dropWhile p).isEmpty = true
      · rw [if_pos hemp]
        have h1 : List.dropWhile p [c] = [c] := by
          rw [List.dropWhile_cons, if_neg hcfalse]
        rw [h1]
        simp only [List.reverse_cons, List.reverse_nil, List.nil_append]
        rw [List.dropWhile_cons, if_neg hcfalse]
      · rw [if_neg hemp]
        rw [List.reverse_append]
        simp only [List.reverse_cons, List.reverse_nil, List.nil_append,
          List.singleton_append]
        rw [List.dropWhile_cons, if_neg hcfalse]

theorem stripChars_idem (l : List Char) : stripChars (stripChars l) = stripChars l := by
  have h1 : (stripChars l).dropWhile isPySpace = stripChars l :=
    dropWhile_head_false isPySpace (l.dropWhile isPySpace)
      (dropWhile_dropWhile isPySpace l)
  show (((stripChars l).dropWhile isPySpace).reverse.dropWhile isPySpace).reverse =
    stripChars l
  rw [h1]
  have h2 : (stripChars l).reverse = (l.dropWhile isPySpace).reverse.dropWhile isPySpace := by
    show (((l.dropWhile isPySpace).reverse.dropWhile isPySpace).reverse).reverse = _
    rw [List.reverse_reverse]
  rw [h2, dropWhile_dropWhile, ← h2, List.reverse_reverse]

theorem pyStrip_idem (s : String) : pyStrip (pyStrip s) = pyStrip s := by
  show String.mk (stripChars (pyStrip s).data) = pyStrip s
  show String.mk (stripChars (stripChars s.data)) = pyStrip s
  rw [stripChars_idem]
  rfl

theorem dedup_projection (A : String) :
    pyStrip (plainOfHtml (preWrap (htmlEscape (pyStrip A)))) = pyStrip A := by
  rw [plainOfHtml_preWrap_esc]
  exact pyStrip_idem A

/-! ## C4: dedup idempotence of the capture pipeline -/

/-- SQLite-shaped well-formedness: every stored note id and parent reference
lies below the autoincrement counter. -/
def NotesWF (s : Store) : Prop :=
  ∀ n ∈ s.notes, n.id < s.nextNoteId ∧ ∀ p, n.parent = some p → p < s.nextNoteId

/-- Find-if-absent on the left part of an append. -/
theorem find?_append_left_none {α : Type} (p : α → Bool) (l1 l2 : List α)
    (h : l1.find? p = none) : (l1 ++ l2).find? p = l2.find? p := by
  rw [List.find?_append, h]
  rfl

theorem get_last_descendant_no_children (s : Store) (rootId : Nat)
    (h : ∀ n ∈ s.notes, n.parent ≠ some rootId) :
    get_last_descendant s rootId = none := by
  unfold get_last_descendant
  have hch : s.notes.filter (fun n => n.parent = some rootId) = [] := by
    rw [List.filter_eq_nil_iff]
    intro n hn
    simp [h n hn]
  have hgc : s.notes.filter (fun n =>
      match n.parent with
      | some p =>
          match get_note s p with
          | some q => q.parent = some rootId
          | none => false
      | none => false) = [] := by
    rw [List.filter_eq_nil_iff]
    intro n hn
    cases hp : n.parent with
    | none => simp
    | some p =>
        cases hq : get_note s p with
        | none => simp [hq]
        | some q =>
            have hqmem : q ∈ s.notes := List.mem_of_find?_eq_some hq
            simp [hq, h q hqmem]
  rw [hgc, hch]
  rfl

theorem preWrap_ne_empty (x : String) : preWrap x ≠ "" := by
  intro h
  have hd := congrArg String.data h
  simp [preWrap, String.data_append] at hd

theorem is_dup_first (s : Store) (tc : String) (img : List Nat) (now : Nat)
    (hwf : NotesWF s)
    (hroot : get_note_by_title s "Буфер обмена" none = none) :
    is_duplicate s tc img now =
      ({ s with
         notes := s.notes ++
           [{ id := s.nextNoteId, parent := none, title := "Буфер обмена",
              body := some "", cursorPos := some 0, updatedAt := now }],
         nextNoteId := s.nextNoteId + 1 }, false) := by
  unfold is_duplicate get_or_create_clipboard_root
  rw [hroot]
  have hld : get_last_descendant
      ({ s with
         notes := s.notes ++
           [{ id := s.nextNoteId, parent := none, title := "Буфер обмена",
              body := some "", cursorPos := some 0, updatedAt := now }],
         nextNoteId := s.nextNoteId + 1 }) s.nextNoteId = none := by
    apply get_last_descendant_no_children
    intro n hn
    rcases List.mem_append.mp hn with hmem | hmem
    · intro hp
      have := (hwf n hmem).2 s.nextNoteId hp
      omega
    · rcases List.mem_singleton.mp hmem with rfl
      simp
  simp [create_note, hld]

theorem notesWF_parent_ne (s : Store) (hwf : NotesWF s) (n : Note) (hn : n ∈ s.notes)
    (x : Nat) (hx : s.nextNoteId ≤ x) : n.parent ≠ some x := by
  intro hp
  have := (hwf n hn).2 x hp
  omega

theorem notesWF_id_ne (s : Store) (hwf : NotesWF s) (n : Note) (hn : n ∈ s.notes)
    (x : Nat) (hx : s.nextNoteId ≤ x) : n.id ≠ x := by
  intro hp
  have := (hwf n hn).1
  omega

/-- First capture of a text-only clipboard event on a well-formed store with
no clipboard root yet: the pipeline creates the root, the date node and one
leaf holding the escaped `pre`-wrapped text, and reports the leaf id. -/
theorem capture_first_text (s : Store) (A : String) (env : QtEnv)
    (lt : String) (li : List Nat)
    (hwf : NotesWF s)
    (hroot : get_note_by_title s "Буфер обмена" none = none)
    (htc : pyStrip A ≠ "") :
    on_clipboard_changed { store := s, lastText := lt, lastImageData := li }
        { text := some A, image := none, html := none } env =
      ({ store :=
           { s with
             notes := s.notes ++
               [{ id := s.nextNoteId, parent := none, title := "Буфер обмена",
                  body := some "", cursorPos := some 0, updatedAt := env.now },
                { id := s.nextNoteId + 1, parent := some s.nextNoteId,
                  title := env.dateStr, body := some "", cursorPos := some 0,
                  updatedAt := env.now },
                { id := s.nextNoteId + 2, parent := some (s.nextNoteId + 1),
                  title := generate_note_title env (pyStrip A) [] false,
                  body := some (preWrap (htmlEscape (pyStrip A))), cursorPos := some 0,
                  updatedAt := env.now }],
             nextNoteId := s.nextNoteId + 3 },
         lastText := pyStrip A, lastImageData := [] },
       some (s.nextNoteId + 2)) := by
  have hroot' : s.notes.find?
      (fun n => n.title = "Буфер обмена" && n.parent = none) = none := hroot
  have h02 : ¬ (s.nextNoteId = s.nextNoteId + 2) := by omega
  have h12 : ¬ (s.nextNoteId + 1 = s.nextNoteId + 2) := by omega
  have hbody : ¬ (("" : String) = preWrap (htmlEscape (pyStrip A))) :=
    fun h => preWrap_ne_empty (htmlEscape (pyStrip A)) h.symm
  have hreuse : get_or_create_clipboard_root
      ({ s with
         notes := s.notes ++
           [{ id := s.nextNoteId, parent := none, title := "Буфер обмена",
              body := some "", cursorPos := some 0, updatedAt := env.now }],
         nextNoteId := s.nextNoteId + 1 }) env.now =
      ({ s with
         notes := s.notes ++
           [{ id := s.nextNoteId, parent := none, title := "Буфер обмена",
              body := some "", cursorPos := some 0, updatedAt := env.now }],
         nextNoteId := s.nextNoteId + 1 }, s.nextNoteId) := by
    unfold get_or_create_clipboard_root get_note_by_title
    rw [find?_append_left_none _ _ _ hroot']
    simp
  have hdatelookup : List.find?
      (fun n => n.title = env.dateStr && n.parent = some s.nextNoteId)
      (s.notes ++
        [{ id := s.nextNoteId, parent := none, title := "Буфер обмена",
           body := some "", cursorPos := some 0, updatedAt := env.now }]) = none := by
    apply List.find?_eq_none.mpr
    intro n hn
    rcases List.mem_append.mp hn with hmem | hmem
    · simp [notesWF_parent_ne s hwf n hmem s.nextNoteId (Nat.le_refl _)]
    · rcases List.mem_singleton.mp hmem with rfl
      simp
  have hdate : get_or_create_date_node
      ({ s with
         notes := s.notes ++
           [{ id := s.nextNoteId, parent := none, title := "Буфер обмена",
              body := some "", cursorPos := some 0, updatedAt := env.now }],
         nextNoteId := s.nextNoteId + 1 }) s.nextNoteId env =
      ({ s with
         notes := s.notes ++
           [{ id := s.nextNoteId, parent := none, title := "Буфер обмена",
              body := some "", cursorPos := some 0, updatedAt := env.now },
            { id := s.nextNoteId + 1, parent := some s.nextNoteId,
              title := env.dateStr, body := some "", cursorPos := some 0,
              updatedAt := env.now }],
         nextNoteId := s.nextNoteId + 2 }, s.nextNoteId + 1) := by
    unfold get_or_create_date_node get_note_by_title
    rw [hdatelookup]
    simp [create_note]
  have hget : get_note
      ({ s with
         notes := s.notes ++
           [{ id := s.nextNoteId, parent := none, title := "Буфер обмена",
              body := some "", cursorPos := some 0, updatedAt := env.now },
            { id := s.nextNoteId + 1, parent := some s.nextNoteId,
              title := env.dateStr, body := some "", cursorPos := some 0,
              updatedAt := env.now },
            { id := s.nextNoteId + 2, parent := some (s.nextNoteId + 1),
              title := generate_note_title env (pyStrip A) [] false,
              body := some "", cursorPos := some 0, updatedAt := env.now }],
         nextNoteId := s.nextNoteId + 3 }) (s.nextNoteId + 2) =
      some { id := s.nextNoteId + 2, parent := some (s.nextNoteId + 1),
             title := generate_note_title env (pyStrip A) [] false,
             body := some "", cursorPos := some 0, updatedAt := env.now } := by
    unfold get_note
    rw [find?_append_left_none]
    · simp [List.find?_cons, h02, h12]
    · apply List.find?_eq_none.mpr
      intro n hn
      simp [notesWF_id_ne s hwf n hn (s.nextNoteId + 2) (by omega)]
  have hupd : ∀ n ∈ s.notes,
      (if n.id = s.nextNoteId + 2 then
        { n with title := generate_note_title env (pyStrip A) [] false,
                 body := some (preWrap (htmlEscape (pyStrip A))),
                 cursorPos := some 0, updatedAt := env.now }
      else n) = n := by
    intro n hn
    rw [if_neg (notesWF_id_ne s hwf n hn (s.nextNoteId + 2) (by omega))]
  have harith : s.nextNoteId + 2 + 1 = s.nextNoteId + 3 := by omega
  have hpre := preWrap_ne_empty (htmlEscape (pyStrip A))
  unfold on_clipboard_changed
  simp only [is_dup_first s (pyStrip A) [] env.now hwf hroot, htc, hreuse, hdate, ne_eq,
    not_false_eq_true, Bool.not_true, Bool.false_and, Option.getD_some,
    Option.getD_none, Bool.not_false, Bool.and_self, Bool.and_true,
    Bool.true_and, if_false, if_true, create_note, harith]
  simp only [save_note, hget]
  simp [hpre, hbody, List.map_append, hupd, List.map_congr_left hupd]
  rw [hget]
  simp [hbody]

/-- Duplicate capture: when the committed last clipboard entry's plain-text
projection equals the incoming text, the event is discarded with no change to
the store. -/
theorem capture_text_dup (t : Store) (A : String) (env : QtEnv)
    (lt : String) (li : List Nat) (root lastNote : Note)
    (hfind : get_note_by_title t "Буфер обмена" none = some root)
    (hlast : get_last_descendant t root.id = some lastNote)
    (htc : pyStrip A ≠ "")
    (hmatch : pyStrip A = pyStrip (plainOfHtml (lastNote.body.getD ""))) :
    on_clipboard_changed { store := t, lastText := lt, lastImageData := li }
        { text := some A, image := none, html := none } env =
      ({ store := t, lastText := lt, lastImageData := li }, none) := by
  have hdup : is_duplicate t (pyStrip A) [] env.now = (t, true) := by
    unfold is_duplicate get_or_create_clipboard_root
    rw [hfind]
    simp [hlast, htc, hmatch]
    rw [← hmatch]
    exact htc
  unfold on_clipboard_changed
  simp [htc, hdup]

/-- Non-duplicate capture on a store that already has the clipboard root and
today's date node: exactly one new leaf is created under the date node. -/
theorem capture_text_next (t : Store) (A : String) (env : QtEnv)
    (lt : String) (li : List Nat) (root lastNote dateNote : Note)
    (hwf : NotesWF t)
    (hfind : get_note_by_title t "Буфер обмена" none = some root)
    (hlast : get_last_descendant t root.id = some lastNote)
    (htc : pyStrip A ≠ "")
    (hne : pyStrip A ≠ pyStrip (plainOfHtml (lastNote.body.getD "")))
    (hdate : get_note_by_title t env.dateStr (some root.id) = some dateNote) :
    on_clipboard_changed { store := t, lastText := lt, lastImageData := li }
        { text := some A, image := none, html := none } env =
      ({ store :=
           { t with
             notes := t.notes ++
               [{ id := t.nextNoteId, parent := some dateNote.id,
                  title := generate_note_title env (pyStrip A) [] false,
                  body := some (preWrap (htmlEscape (pyStrip A))), cursorPos := some 0,
                  updatedAt := env.now }],
             nextNoteId := t.nextNoteId + 1 },
         lastText := pyStrip A, lastImageData := [] },
       some t.nextNoteId) := by
  have hdup : is_duplicate t (pyStrip A) [] env.now = (t, false) := by
    unfold is_duplicate get_or_create_clipboard_root
    rw [hfind]
    simp [hlast, htc, hne]
  have hreuse : get_or_create_clipboard_root t env.now = (t, root.id) := by
    unfold get_or_create_clipboard_root
    rw [hfind]
  have hdatenode : get_or_create_date_node t root.id env = (t, dateNote.id) := by
    unfold get_or_create_date_node
    rw [hdate]
  have hpre := preWrap_ne_empty (htmlEscape (pyStrip A))
  have hget : get_note
      ({ t with
         notes := t.notes ++
           [{ id := t.nextNoteId, parent := some dateNote.id,
              title := generate_note_title env (pyStrip A) [] false,
              body := some "", cursorPos := some 0, updatedAt := env.now }],
         nextNoteId := t.nextNoteId + 1 }) t.nextNoteId =
      some { id := t.nextNoteId, parent := some dateNote.id,
             title := generate_note_title env (pyStrip A) [] false,
             body := some "", cursorPos := some 0, updatedAt := env.now } := by
    unfold get_note
    rw [find?_append_left_none]
    · simp
    · apply List.find?_eq_none.mpr
      intro n hn
      simp [notesWF_id_ne t hwf n hn t.nextNoteId (Nat.le_refl _)]
  have hbody : ¬ (("" : String) = preWrap (htmlEscape (pyStrip A))) :=
    fun h => preWrap_ne_empty (htmlEscape (pyStrip A)) h.symm
  have hupd : ∀ n ∈ t.notes,
      (if n.id = t.nextNoteId then
        { n with title := generate_note_title env (pyStrip A) [] false,
                 body := some (preWrap (htmlEscape (pyStrip A))),
                 cursorPos := some 0, updatedAt := env.now }
      else n) = n := by
    intro n hn
    rw [if_neg (notesWF_id_ne t hwf n hn t.nextNoteId (Nat.le_refl _))]
  unfold on_clipboard_changed
  simp only [hdup, htc, hreuse, hdatenode, ne_eq, not_false_eq_true, Bool.not_true,
    Bool.false_and, Option.getD_some, Option.getD_none, Bool.not_false, Bool.and_self,
    Bool.and_true, Bool.true_and, if_false, if_true, create_note]
  simp only [save_note, hget]
  simp [hpre, hbody, List.map_append, hupd, List.map_congr_left hupd]
  rw [hget]
  simp [hbody]

/-- Leaves under the clipboard branch: notes whose grandparent (through the
same join `get_last_descendant` uses) is the branch root. -/
def clipboardLeafCount (s : Store) : Nat :=
  match get_note_by_title s "Буфер обмена" none with
  | none => 0
  | some root =>
      (s.notes.filter (fun n =>
        match n.parent with
        | some p =>
            match get_note s p with
            | some q => q.parent = some root.id
            | none => false
        | none => false)).length

theorem branch_shape_facts (s : Store) (u : Store) (nowr : Nat) (ds : String)
    (leaves : List Note)
    (hwf : NotesWF s)
    (hroot : get_note_by_title s "Буфер обмена" none = none)
    (hu : u.notes = s.notes ++
      ({ id := s.nextNoteId, parent := none, title := "Буфер обмена",
         body := some "", cursorPos := some 0, updatedAt := nowr } ::
       { id := s.nextNoteId + 1, parent := some s.nextNoteId, title := ds,
         body := some "", cursorPos := some 0, updatedAt := nowr } :: leaves))
    (hleafpar : ∀ L ∈ leaves, L.parent = some (s.nextNoteId + 1))
    (hleafid : ∀ L ∈ leaves, s.nextNoteId + 1 < L.id) :
    get_note_by_title u "Буфер обмена" none =
      some { id := s.nextNoteId, parent := none, title := "Буфер обмена",
             body := some "", cursorPos := some 0, updatedAt := nowr } ∧
    get_note_by_title u ds (some s.nextNoteId) =
      some { id := s.nextNoteId + 1, parent := some s.nextNoteId, title := ds,
             body := some "", cursorPos := some 0, updatedAt := nowr } ∧
    (u.notes.filter (fun n =>
        match n.parent with
        | some p =>
            match get_note u p with
            | some q => q.parent = some s.nextNoteId
            | none => false
        | none => false)) = leaves ∧
    clipboardLeafCount u = leaves.length ∧
    (∀ L, maxIdRow leaves = some L → get_last_descendant u s.nextNoteId = some L) := by
  have hroot' : s.notes.find?
      (fun n => n.title = "Буфер обмена" && n.parent = none) = none := hroot
  have hgetN : get_note u s.nextNoteId =
      some { id := s.nextNoteId, parent := none, title := "Буфер обмена",
             body := some "", cursorPos := some 0, updatedAt := nowr } := by
    unfold get_note
    rw [hu, find?_append_left_none]
    · simp
    · apply List.find?_eq_none.mpr
      intro n hn
      simp [notesWF_id_ne s hwf n hn s.nextNoteId (Nat.le_refl _)]
  have hgetN1 : get_note u (s.nextNoteId + 1) =
      some { id := s.nextNoteId + 1, parent := some s.nextNoteId, title := ds,
             body := some "", cursorPos := some 0, updatedAt := nowr } := by
    unfold get_note
    rw [hu, find?_append_left_none]
    · have hne : ¬ (s.nextNoteId = s.nextNoteId + 1) := by omega
      simp [List.find?_cons, hne]
    · apply List.find?_eq_none.mpr
      intro n hn
      simp [notesWF_id_ne s hwf n hn (s.nextNoteId + 1) (by omega)]
  have hfound : get_note_by_title u "Буфер обмена" none =
      some { id := s.nextNoteId, parent := none, title := "Буфер обмена",
             body := some "", cursorPos := some 0, updatedAt := nowr } := by
    unfold get_note_by_title
    rw [hu, find?_append_left_none _ _ _ hroot']
    simp
  have hdfound : get_note_by_title u ds (some s.nextNoteId) =
      some { id := s.nextNoteId + 1, parent := some s.nextNoteId, title := ds,
             body := some "", cursorPos := some 0, updatedAt := nowr } := by
    unfold get_note_by_title
    rw [hu, find?_append_left_none]
    · simp
    · apply List.find?_eq_none.mpr
      intro n hn
      simp [notesWF_parent_ne s hwf n hn s.nextNoteId (Nat.le_refl _)]
  have hfilter : (u.notes.filter (fun n =>
      match n.parent with
      | some p =>
          match get_note u p with
          | some q => q.parent = some s.nextNoteId
          | none => false
      | none => false)) = leaves := by
    rw [hu]
    rw [List.filter_append]
    have hs : s.notes.filter (fun n =>
        match n.parent with
        | some p =>
            match get_note u p with
            | some q => q.parent = some s.nextNoteId
            | none => false
        | none => false) = [] := by
      rw [List.filter_eq_nil_iff]
      intro n hn
      cases hp : n.parent with
      | none => simp
      | some p =>
          cases hq : get_note u p with
          | none => simp [hq]
          | some q =>
              have hqid : q.id = p := by
                have hx := List.find?_some hq
                simpa using hx
              have hplt : p < s.nextNoteId := (hwf n hn).2 p hp
              have hqmem : q ∈ u.notes := List.mem_of_find?_eq_some hq
              rw [hu] at hqmem
              have hqne : q.parent ≠ some s.nextNoteId := by
                rcases List.mem_append.mp hqmem with hm | hm
                · exact notesWF_parent_ne s hwf q hm s.nextNoteId (Nat.le_refl _)
                · rcases List.mem_cons.mp hm with rfl | hm2
                  · exfalso
                    simp at hqid
                    omega
                  · rcases List.mem_cons.mp hm2 with rfl | hm3
                    · exfalso
                      simp at hqid
                      omega
                    · exfalso
                      have hlt := hleafid q hm3
                      omega
              simp [hq, hqne]
    rw [hs]
    have hcons : List.filter (fun n =>
        match n.parent with
        | some p =>
            match get_note u p with
            | some q => q.parent = some s.nextNoteId
            | none => false
        | none => false)
        ({ id := s.nextNoteId, parent := none, title := "Буфер обмена",
           body := some "", cursorPos := some 0, updatedAt := nowr } ::
         { id := s.nextNoteId + 1, parent := some s.nextNoteId, title := ds,
           body := some "", cursorPos := some 0, updatedAt := nowr } :: leaves) =
        leaves := by
      rw [List.filter_cons, List.filter_cons]
      have hrootpred : (match (none : Option Nat) with
          | some p =>
              match get_note u p with
              | some q => decide (q.parent = some s.nextNoteId)
              | none => false
          | none => false) = false := rfl
      simp only []
      rw [if_neg (by simp)]
      rw [if_neg (by simp [hgetN])]
      have : ∀ L ∈ leaves, (fun n =>
          match n.parent with
          | some p =>
              match get_note u p with
              | some q => decide (q.parent = some s.nextNoteId)
              | none => false
          | none => false) L = true := by
        intro L hL
        simp only [hleafpar L hL, hgetN1]
        simp
      exact List.filter_eq_self.mpr this
    rw [hcons]
    simp
  refine ⟨hfound, hdfound, hfilter, ?_, ?_⟩
  · unfold clipboardLeafCount
    rw [hfound]
    simp only []
    rw [hfilter]
  · intro L hL
    simp only [get_last_descendant]
    rw [hfilter, hL]

theorem notesWF_append (s : Store) (new : List Note) (m : Nat)
    (hwf : NotesWF s) (hm : s.nextNoteId ≤ m)
    (hnew : ∀ n ∈ new, n.id < m ∧ ∀ p, n.parent = some p → p < m) :
    NotesWF { s with notes := s.notes ++ new, nextNoteId := m } := by
  intro n hn
  rcases List.mem_append.mp hn with h | h
  · obtain ⟨h1, h2⟩ := hwf n h
    exact ⟨by simp; omega, fun p hp => by have := h2 p hp; simp; omega⟩
  · exact hnew n h

/-- C4: on a well-formed store with a not-yet-materialized clipboard branch,
two consecutive text-only events with the same payload produce exactly one
leaf under the clipboard branch (the second is discarded against the
committed entry — whatever the monitor's in-memory `last_text` was), and the
sequence A, B, A produces exactly three leaves. -/
theorem C4_dedup_idempotence (s : Store) (A B : String) (env : QtEnv)
    (lt : String) (li : List Nat)
    (hwf : NotesWF s)
    (hroot : get_note_by_title s "Буфер обмена" none = none)
    (hA : pyStrip A ≠ "") (hB : pyStrip B ≠ "") (hAB : pyStrip A ≠ pyStrip B) :
    (clipboardLeafCount (on_clipboard_changed
        (on_clipboard_changed { store := s, lastText := lt, lastImageData := li }
          { text := some A, image := none, html := none } env).1
        { text := some A, image := none, html := none } env).1.store = 1 ∧
      (on_clipboard_changed
        (on_clipboard_changed { store := s, lastText := lt, lastImageData := li }
          { text := some A, image := none, html := none } env).1
        { text := some A, image := none, html := none } env).2 = none) ∧
    clipboardLeafCount (on_clipboard_changed (on_clipboard_changed
        (on_clipboard_changed { store := s, lastText := lt, lastImageData := li }
          { text := some A, image := none, html := none } env).1
        { text := some B, image := none, html := none } env).1
        { text := some A, image := none, html := none } env).1.store = 3 := by
  rw [capture_first_text s A env lt li hwf hroot hA]
  set rootN : Note :=
    { id := s.nextNoteId, parent := none, title := "Буфер обмена",
      body := some "", cursorPos := some 0, updatedAt := env.now } with hrootN
  set dateN : Note :=
    { id := s.nextNoteId + 1, parent := some s.nextNoteId, title := env.dateStr,
      body := some "", cursorPos := some 0, updatedAt := env.now } with hdateN
  set leafA : Note :=
    { id := s.nextNoteId + 2, parent := some (s.nextNoteId + 1),
      title := generate_note_title env (pyStrip A) [] false,
      body := some (preWrap (htmlEscape (pyStrip A))), cursorPos := some 0,
      updatedAt := env.now } with hleafA
  set t1 : Store :=
    { s with notes := s.notes ++ [rootN, dateN, leafA],
             nextNoteId := s.nextNoteId + 3 } with ht1
  have shape1 := branch_shape_facts s t1 env.now env.dateStr [leafA] hwf hroot
    (by rw [ht1])
    (by intro L hL; rcases List.mem_singleton.mp hL with rfl; simp [hleafA])
    (by
      intro L hL
      rcases List.mem_singleton.mp hL with rfl
      simp [hleafA])
  obtain ⟨hfound1, hdfound1, _, hcount1, hlastgen1⟩ := shape1
  have hlast1 : get_last_descendant t1 s.nextNoteId = some leafA :=
    hlastgen1 leafA (by simp [maxIdRow])
  have hfound1p : get_note_by_title t1 "Буфер обмена" none = some rootN := by
    rw [hfound1, hrootN]
  have hrootid : rootN.id = s.nextNoteId := by simp [hrootN]
  have hprojA : pyStrip (plainOfHtml (leafA.body.getD "")) = pyStrip A := by
    simp only [hleafA]
    simpa using dedup_projection A
  constructor
  · constructor
    · rw [capture_text_dup t1 A env (pyStrip A) [] rootN leafA hfound1p
          (by rw [hrootid]; exact hlast1) hA hprojA.symm]
      simpa using hcount1
    · rw [capture_text_dup t1 A env (pyStrip A) [] rootN leafA hfound1p
          (by rw [hrootid]; exact hlast1) hA hprojA.symm]
  · have hwf1 : NotesWF t1 := by
      rw [ht1]
      apply notesWF_append s _ _ hwf (by omega)
      intro n hn
      rcases List.mem_cons.mp hn with rfl | hn2
      · refine ⟨by simp [hrootN], ?_⟩
        intro p hp
        simp [hrootN] at hp
      · rcases List.mem_cons.mp hn2 with rfl | hn3
        · refine ⟨by simp [hdateN], ?_⟩
          intro p hp
          simp [hdateN] at hp
          omega
        · rcases List.mem_singleton.mp hn3 with rfl
          refine ⟨by simp [hleafA], ?_⟩
          intro p hp
          simp [hleafA] at hp
          omega
    have hdfound1p : get_note_by_title t1 env.dateStr (some rootN.id) = some dateN := by
      rw [hrootid, hdfound1, hdateN]
    have hneB : pyStrip B ≠ pyStrip (plainOfHtml (leafA.body.getD "")) := by
      rw [hprojA]
      exact fun h => hAB h.symm
    rw [capture_text_next t1 B env (pyStrip A) [] rootN leafA dateN hwf1 hfound1p
        (by rw [hrootid]; exact hlast1) hB hneB hdfound1p]
    set leafB : Note :=
      { id := t1.nextNoteId, parent := some dateN.id,
        title := generate_note_title env (pyStrip B) [] false,
        body := some (preWrap (htmlEscape (pyStrip B))), cursorPos := some 0,
        updatedAt := env.now } with hleafB
    set t2 : Store :=
      { t1 with notes := t1.notes ++ [leafB], nextNoteId := t1.nextNoteId + 1 } with ht2
    have hleafBpar : leafB.parent = some (s.nextNoteId + 1) := by
      simp [hleafB, hdateN]
    have hleafBid : leafB.id = s.nextNoteId + 3 := by
      simp [hleafB, ht1]
    have hu2 : t2.notes = s.notes ++ (rootN :: dateN :: [leafA, leafB]) := by
      rw [ht2, ht1]
      simp
    have shape2 := branch_shape_facts s t2 env.now env.dateStr [leafA, leafB] hwf hroot
      hu2
      (by
        intro L hL
        rcases List.mem_cons.mp hL with rfl | hL2
        · simp [hleafA]
        · rcases List.mem_singleton.mp hL2 with rfl
          exact hleafBpar)
      (by
        intro L hL
        rcases List.mem_cons.mp hL with rfl | hL2
        · simp [hleafA]
        · rcases List.mem_singleton.mp hL2 with rfl
          rw [hleafBid]
          omega)
    obtain ⟨hfound2, hdfound2, _, hcount2, hlastgen2⟩ := shape2
    have hleafAid : leafA.id = s.nextNoteId + 2 := by simp [hleafA]
    have hmax2 : maxIdRow [leafA, leafB] = some leafB := by
      have hgt : leafA.id < leafB.id := by
        rw [hleafAid, hleafBid]
        omega
      simp [maxIdRow, hgt]
    have hlast2 : get_last_descendant t2 s.nextNoteId = some leafB :=
      hlastgen2 leafB hmax2
    have hwf2 : NotesWF t2 := by
      rw [ht2]
      apply notesWF_append t1 _ _ hwf1 (by omega)
      intro n hn
      rcases List.mem_singleton.mp hn with rfl
      constructor
      · simp [hleafB]
      · intro p hp
        rw [hleafBpar] at hp
        have hpe := Option.some.inj hp
        simp [ht1]
        omega
    have hfound2p : get_note_by_title t2 "Буфер обмена" none = some rootN := by
      rw [hfound2, hrootN]
    have hdfound2p : get_note_by_title t2 env.dateStr (some rootN.id) = some dateN := by
      rw [hrootid, hdfound2, hdateN]
    have hprojB : pyStrip (plainOfHtml (leafB.body.getD "")) = pyStrip B := by
      simp only [hleafB]
      simpa using dedup_projection B
    have hneA : pyStrip A ≠ pyStrip (plainOfHtml (leafB.body.getD "")) := by
      rw [hprojB]
      exact hAB
    rw [capture_text_next t2 A env (pyStrip B) [] rootN leafB dateN hwf2 hfound2p
        (by rw [hrootid]; exact hlast2) hA hneA hdfound2p]
    set leafC : Note :=
      { id := t2.nextNoteId, parent := some dateN.id,
        title := generate_note_title env (pyStrip A) [] false,
        body := some (preWrap (htmlEscape (pyStrip A))), cursorPos := some 0,
        updatedAt := env.now } with hleafC
    set t3 : Store :=
      { t2 with notes := t2.notes ++ [leafC], nextNoteId := t2.nextNoteId + 1 } with ht3
    have hleafCpar : leafC.parent = some (s.nextNoteId + 1) := by
      simp [hleafC, hdateN]
    have hleafCid : leafC.id = s.nextNoteId + 4 := by
      simp [hleafC, ht2, ht1]
    have hu3 : t3.notes = s.notes ++ (rootN :: dateN :: [leafA, leafB, leafC]) := by
      rw [ht3]
      rw [show t3.notes = t2.notes ++ [leafC] from by rw [ht3]] at *
      rw [hu2]
      simp
    have shape3 := branch_shape_facts s t3 env.now env.dateStr [leafA, leafB, leafC]
      hwf hroot hu3
      (by
        intro L hL
        rcases List.mem_cons.mp hL with rfl | hL2
        · simp [hleafA]
        · rcases List.mem_cons.mp hL2 with rfl | hL3
          · exact hleafBpar
          · rcases List.mem_singleton.mp hL3 with rfl
            exact hleafCpar)
      (by
        intro L hL
        rcases List.mem_cons.mp hL with rfl | hL2
        · simp [hleafA]
        · rcases List.mem_cons.mp hL2 with rfl | hL3
          · rw [hleafBid]; omega
          · rcases List.mem_singleton.mp hL3 with rfl
            rw [hleafCid]; omega)
    obtain ⟨_, _, _, hcount3, _⟩ := shape3
    simpa using hcount3

def c4Store : Store :=
  { notes := [], attachments := [], state := [], nextNoteId := 1, nextAttId := 1,
    fkEnabled := true }

def c4Env : QtEnv :=
  { parseHtml := fun _ => [], imageSize := fun _ => none, dateStr := "25.10.12",
    timeTitle := "12:00:00", attName := "clip.png", now := 7 }

/-- C4 witness: the dedup-idempotence statement at an empty store, payloads
`"hello"` / `"bye"`, and a concrete Qt environment. -/
theorem C4_dedup_idempotence_witness :
    NotesWF c4Store ∧
      get_note_by_title c4Store "Буфер обмена" none = none ∧
      pyStrip "hello" ≠ "" ∧ pyStrip "bye" ≠ "" ∧
      pyStrip "hello" ≠ pyStrip "bye" ∧
      ((clipboardLeafCount (on_clipboard_changed
          (on_clipboard_changed { store := c4Store, lastText := "x", lastImageData := [] }
            { text := some "hello", image := none, html := none } c4Env).1
          { text := some "hello", image := none, html := none } c4Env).1.store = 1 ∧
        (on_clipboard_changed
          (on_clipboard_changed { store := c4Store, lastText := "x", lastImageData := [] }
            { text := some "hello", image := none, html := none } c4Env).1
          { text := some "hello", image := none, html := none } c4Env).2 = none) ∧
      clipboardLeafCount (on_clipboard_changed (on_clipboard_changed
          (on_clipboard_changed { store := c4Store, lastText := "x", lastImageData := [] }
            { text := some "hello", image := none, html := none } c4Env).1
          { text := some "bye", image := none, html := none } c4Env).1
          { text := some "hello", image := none, html := none } c4Env).1.store = 3) :=
  ⟨by intro n hn; exact absurd hn (List.not_mem_nil n), by decide, by decide, by decide,
   by decide,
   C4_dedup_idempotence c4Store "hello" "bye" c4Env "x" []
     (by intro n hn; exact absurd hn (List.not_mem_nil n)) (by decide) (by decide)
     (by decide) (by decide)⟩

/-! ## C5: populate priority -/

theorem process_frag_store (env : QtEnv) (noteId : Nat) (frags : List Frag) :
    ∀ (acc : Store × List String × Bool),
      ((frags.foldl (process_frag noteId env) acc).1.notes = acc.1.notes ∧
       (frags.foldl (process_frag noteId env) acc).1.nextNoteId = acc.1.nextNoteId ∧
       (frags.foldl (process_frag noteId env) acc).1.state = acc.1.state ∧
       (frags.foldl (process_frag noteId env) acc).1.fkEnabled = acc.1.fkEnabled) := by
  induction frags with
  | nil => intro acc; exact ⟨rfl, rfl, rfl, rfl⟩
  | cons f t ih =>
      intro acc
      rw [List.foldl_cons]
      have hstep : (process_frag noteId env acc f).1.notes = acc.1.notes ∧
          (process_frag noteId env acc f).1.nextNoteId = acc.1.nextNoteId ∧
          (process_frag noteId env acc f).1.state = acc.1.state ∧
          (process_frag noteId env acc f).1.fkEnabled = acc.1.fkEnabled := by
        cases f with
        | image img =>
            cases img with
            | none => exact ⟨rfl, rfl, rfl, rfl⟩
            | some bs => simp [process_frag, add_attachment]
        | text tx =>
            by_cases h : tx = ""
            · simp [process_frag, h]
            · simp [process_frag, h]
      obtain ⟨h1, h2, h3, h4⟩ := ih (process_frag noteId env acc f)
      exact ⟨h1.trans hstep.1, h2.trans hstep.2.1, h3.trans hstep.2.2.1,
        h4.trans hstep.2.2.2⟩

theorem pmc_store (s : Store) (noteId : Nat) (doc : List Block) (env : QtEnv) :
    (process_mixed_content s noteId doc env).1.notes = s.notes ∧
    (process_mixed_content s noteId doc env).1.nextNoteId = s.nextNoteId ∧
    (process_mixed_content s noteId doc env).1.state = s.state ∧
    (process_mixed_content s noteId doc env).1.fkEnabled = s.fkEnabled := by
  unfold process_mixed_content
  suffices h : ∀ (acc : Store × List String × Bool),
      ((doc.foldl (fun acc block =>
        let b := block.foldl (process_frag noteId env) (acc.1, [], false)
        (b.1,
         (if b.2.1 ≠ [] then acc.2.1 ++ [strJoin b.2.1] else acc.2.1),
         acc.2.2 || b.2.2)) acc).1.notes = acc.1.notes ∧
       (doc.foldl (fun acc block =>
        let b := block.foldl (process_frag noteId env) (acc.1, [], false)
        (b.1,
         (if b.2.1 ≠ [] then acc.2.1 ++ [strJoin b.2.1] else acc.2.1),
         acc.2.2 || b.2.2)) acc).1.nextNoteId = acc.1.nextNoteId ∧
       (doc.foldl (fun acc block =>
        let b := block.foldl (process_frag noteId env) (acc.1, [], false)
        (b.1,
         (if b.2.1 ≠ [] then acc.2.1 ++ [strJoin b.2.1] else acc.2.1),
         acc.2.2 || b.2.2)) acc).1.state = acc.1.state ∧
       (doc.foldl (fun acc block =>
        let b := block.foldl (process_frag noteId env) (acc.1, [], false)
        (b.1,
         (if b.2.1 ≠ [] then acc.2.1 ++ [strJoin b.2.1] else acc.2.1),
         acc.2.2 || b.2.2)) acc).1.fkEnabled = acc.1.fkEnabled) by
    exact h (s, [], false)
  induction doc with
  | nil => intro acc; exact ⟨rfl, rfl, rfl, rfl⟩
  | cons b t ih =>
      intro acc
      rw [List.foldl_cons]
      obtain ⟨g1, g2, g3, g4⟩ := process_frag_store env noteId b (acc.1, [], false)
      obtain ⟨h1, h2, h3, h4⟩ := ih _
      refine ⟨h1.trans ?_, h2.trans ?_, h3.trans ?_, h4.trans ?_⟩
      · exact g1
      · exact g2
      · exact g3
      · exact g4

theorem process_frag_flag_mono (env : QtEnv) (noteId : Nat) (frags : List Frag) :
    ∀ (acc : Store × List String × Bool), acc.2.2 = true →
      (frags.foldl (process_frag noteId env) acc).2.2 = true := by
  induction frags with
  | nil => intro acc h; exact h
  | cons f t ih =>
      intro acc h
      rw [List.foldl_cons]
      apply ih
      cases f with
      | image img =>
          cases img with
          | none => exact h
          | some bs => rfl
      | text tx =>
          by_cases htx : tx = ""
          · simp [process_frag, htx]; exact h
          · simp [process_frag, htx, h]

theorem process_frag_no_content (env : QtEnv) (noteId : Nat) (frags : List Frag) :
    ∀ (acc : Store × List String × Bool),
      (frags.foldl (process_frag noteId env) acc).2.2 = false →
      (frags.foldl (process_frag noteId env) acc).1 = acc.1 := by
  induction frags with
  | nil => intro acc _; rfl
  | cons f t ih =>
      intro acc hfl
      rw [List.foldl_cons] at hfl ⊢
      cases f with
      | image img =>
          cases img with
          | none => exact ih acc hfl
          | some bs =>
              exfalso
              have := process_frag_flag_mono env noteId t
                (process_frag noteId env acc (Frag.image (some bs))) rfl
              rw [this] at hfl
              cases hfl
      | text tx =>
          by_cases htx : tx = ""
          · have hstep : process_frag noteId env acc (Frag.text tx) = acc := by
              simp [process_frag, htx]
            rw [hstep] at hfl ⊢
            exact ih acc hfl
          · have hstep : process_frag noteId env acc (Frag.text tx) =
                (acc.1, acc.2.1 ++ [htmlEscape tx], acc.2.2 || (pyStrip tx ≠ "")) := by
              simp [process_frag, htx]
            rw [hstep] at hfl ⊢
            exact ih _ hfl

theorem doc_fold_flag_mono (env : QtEnv) (noteId : Nat) (doc : List Block) :
    ∀ (acc : Store × List String × Bool), acc.2.2 = true →
      (doc.foldl (fun acc block =>
        let b := block.foldl (process_frag noteId env) (acc.1, [], false)
        (b.1,
         (if b.2.1 ≠ [] then acc.2.1 ++ [strJoin b.2.1] else acc.2.1),
         acc.2.2 || b.2.2)) acc).2.2 = true := by
  induction doc with
  | nil => intro acc h; exact h
  | cons b t ih =>
      intro acc h
      rw [List.foldl_cons]
      apply ih
      simp [h]

theorem doc_fold_no_content (env : QtEnv) (noteId : Nat) (doc : List Block) :
    ∀ (acc : Store × List String × Bool),
      (doc.foldl (fun acc block =>
        let b := block.foldl (process_frag noteId env) (acc.1, [], false)
        (b.1,
         (if b.2.1 ≠ [] then acc.2.1 ++ [strJoin b.2.1] else acc.2.1),
         acc.2.2 || b.2.2)) acc).2.2 = false →
      (doc.foldl (fun acc block =>
        let b := block.foldl (process_frag noteId env) (acc.1, [], false)
        (b.1,
         (if b.2.1 ≠ [] then acc.2.1 ++ [strJoin b.2.1] else acc.2.1),
         acc.2.2 || b.2.2)) acc).1 = acc.1 := by
  induction doc with
  | nil => intro acc _; rfl
  | cons b t ih =>
      intro acc hfl
      rw [List.foldl_cons] at hfl ⊢
      set b1 := b.foldl (process_frag noteId env) (acc.1, [], false) with hb1
      by_cases hbf : b1.2.2 = true
      · exfalso
        have := doc_fold_flag_mono env noteId t
          (b1.1, (if b1.2.1 ≠ [] then acc.2.1 ++ [strJoin b1.2.1] else acc.2.1),
           acc.2.2 || b1.2.2) (by simp [hbf])
        rw [this] at hfl
        cases hfl
      · have hbf' : b1.2.2 = false := by
          cases hx : b1.2.2
          · rfl
          · exact absurd hx hbf
        have hb1s : b1.1 = acc.1 := process_frag_no_content env noteId b _ hbf'
        have := ih (b1.1, (if b1.2.1 ≠ [] then acc.2.1 ++ [strJoin b1.2.1] else acc.2.1),
          acc.2.2 || b1.2.2) hfl
        rw [this]
        exact hb1s

theorem pmc_no_content (s : Store) (noteId : Nat) (doc : List Block) (env : QtEnv)
    (h : (process_mixed_content s noteId doc env).2.2 = false) :
    (process_mixed_content s noteId doc env).1 = s := by
  unfold process_mixed_content at h ⊢
  exact doc_fold_no_content env noteId doc (s, [], false) h

theorem ne_empty_of_data_pos (s : String) (h : 0 < s.data.length) : s ≠ "" := by
  intro hc
  rw [hc] at h
  simp at h

theorem htmlEscape_ne_empty (t : String) (h : t ≠ "") : htmlEscape t ≠ "" := by
  apply ne_empty_of_data_pos
  show 0 < (escCharsList t.data).length
  cases ht : t.data with
  | nil => exact absurd (String.ext ht) h
  | cons c r =>
      show 0 < ((List.map escChar (c :: r)).flatten).length
      rw [List.map_cons, List.flatten_cons, List.length_append]
      have : 0 < (escChar c).length := by
        unfold escChar
        repeat' split
        all_goals simp
      omega

theorem imgTag_ne_empty (attId : Nat) : imgTag attId ≠ "" := by
  apply ne_empty_of_data_pos
  unfold imgTag
  rw [String.data_append, String.data_append, List.length_append]
  simp

theorem foldl_append_length (rest : List String) :
    ∀ a : String, a.data.length ≤ (rest.foldl (fun x y => x ++ y) a).data.length := by
  induction rest with
  | nil => intro a; exact Nat.le_refl _
  | cons r t ih =>
      intro a
      rw [List.foldl_cons]
      have h1 := ih (a ++ r)
      rw [String.data_append, List.length_append] at h1
      omega

theorem strJoin_ne_empty (parts : List String) (hne : parts ≠ [])
    (hall : ∀ x ∈ parts, x ≠ "") : strJoin parts ≠ "" := by
  cases parts with
  | nil => exact absurd rfl hne
  | cons x rest =>
      apply ne_empty_of_data_pos
      unfold strJoin
      rw [List.foldl_cons]
      have h1 := foldl_append_length rest ("" ++ x)
      have h2 : 0 < ("" ++ x).data.length := by
        rw [String.data_append]
        have hx : x.data ≠ [] := by
          intro hc
          exact hall x (List.mem_cons_self _ _) (String.ext hc)
        cases hx2 : x.data with
        | nil => exact absurd hx2 hx
        | cons c r => simp
      omega

theorem foldl_appsep_length (sep : String) (rest : List String) :
    ∀ a : String,
      a.data.length ≤ (rest.foldl (fun x y => x ++ sep ++ y) a).data.length := by
  induction rest with
  | nil => intro a; exact Nat.le_refl _
  | cons r t ih =>
      intro a
      rw [List.foldl_cons]
      have h1 := ih (a ++ sep ++ r)
      rw [String.data_append, String.data_append, List.length_append,
        List.length_append] at h1
      omega

theorem strIntercalate_ne_empty (sep : String) (parts : List String)
    (hne : parts ≠ []) (hall : ∀ x ∈ parts, x ≠ "") :
    strIntercalate sep parts ≠ "" := by
  cases parts with
  | nil => exact absurd rfl hne
  | cons x rest =>
      apply ne_empty_of_data_pos
      show 0 < (rest.foldl (fun a b => a ++ sep ++ b) x).data.length
      have h1 := foldl_appsep_length sep rest x
      have h2 : 0 < x.data.length := by
        have hx : x.data ≠ [] := by
          intro hc
          exact hall x (List.mem_cons_self _ _) (String.ext hc)
        cases hx2 : x.data with
        | nil => exact absurd hx2 hx
        | cons c r => simp
      omega

theorem process_frag_parts_invariant (env : QtEnv) (noteId : Nat) (frags : List Frag) :
    ∀ acc : Store × List String × Bool,
      (∀ x ∈ acc.2.1, x ≠ "") →
      (acc.2.2 = true → acc.2.1 ≠ []) →
      (∀ x ∈ (frags.foldl (process_frag noteId env) acc).2.1, x ≠ "") ∧
      ((frags.foldl (process_frag noteId env) acc).2.2 = true →
        (frags.foldl (process_frag noteId env) acc).2.1 ≠ []) := by
  induction frags with
  | nil => intro acc h1 h2; exact ⟨h1, h2⟩
  | cons f t ih =>
      intro acc h1 h2
      rw [List.foldl_cons]
      cases f with
      | image img =>
          cases img with
          | none => exact ih acc h1 h2
          | some bs =>
              apply ih
              · intro x hx
                rcases List.mem_append.mp hx with hm | hm
                · exact h1 x hm
                · rcases List.mem_singleton.mp hm with rfl
                  exact imgTag_ne_empty _
              · intro _
                simp [process_frag, add_attachment]
      | text tx =>
          by_cases htx : tx = ""
          · have hstep : process_frag noteId env acc (Frag.text tx) = acc := by
              simp [process_frag, htx]
            rw [hstep]
            exact ih acc h1 h2
          · have hstep : process_frag noteId env acc (Frag.text tx) =
                (acc.1, acc.2.1 ++ [htmlEscape tx], acc.2.2 || (pyStrip tx ≠ "")) := by
              simp [process_frag, htx]
            rw [hstep]
            apply ih
            · intro x hx
              rcases List.mem_append.mp hx with hm | hm
              · exact h1 x hm
              · rcases List.mem_singleton.mp hm with rfl
                exact htmlEscape_ne_empty tx htx
            · intro _
              simp

theorem doc_fold_parts_invariant (env : QtEnv) (noteId : Nat) (doc : List Block) :
    ∀ acc : Store × List String × Bool,
      (∀ x ∈ acc.2.1, x ≠ "") →
      (acc.2.2 = true → acc.2.1 ≠ []) →
      (∀ x ∈ (doc.foldl (fun acc block =>
          let b := block.foldl (process_frag noteId env) (acc.1, [], false)
          (b.1,
           (if b.2.1 ≠ [] then acc.2.1 ++ [strJoin b.2.1] else acc.2.1),
           acc.2.2 || b.2.2)) acc).2.1, x ≠ "") ∧
      ((doc.foldl (fun acc block =>
          let b := block.foldl (process_frag noteId env) (acc.1, [], false)
          (b.1,
           (if b.2.1 ≠ [] then acc.2.1 ++ [strJoin b.2.1] else acc.2.1),
           acc.2.2 || b.2.2)) acc).2.2 = true →
        (doc.foldl (fun acc block =>
          let b := block.foldl (process_frag noteId env) (acc.1, [], false)
          (b.1,
           (if b.2.1 ≠ [] then acc.2.1 ++ [strJoin b.2.1] else acc.2.1),
           acc.2.2 || b.2.2)) acc).2.1 ≠ []) := by
  induction doc with
  | nil => intro acc h1 h2; exact ⟨h1, h2⟩
  | cons blk t ih =>
      intro acc h1 h2
      rw [List.foldl_cons]
      obtain ⟨binv1, binv2⟩ := process_frag_parts_invariant env noteId blk
        (acc.1, [], false) (by intro x hx; cases hx) (by intro hx; cases hx)
      set b1 := blk.foldl (process_frag noteId env) (acc.1, [], false) with hb1
      have hparts2 : ∀ x ∈ (if b1.2.1 ≠ [] then acc.2.1 ++ [strJoin b1.2.1]
          else acc.2.1), x ≠ "" := by
        intro x hx
        by_cases hbp : b1.2.1 ≠ []
        · rw [if_pos hbp] at hx
          rcases List.mem_append.mp hx with hm | hm
          · exact h1 x hm
          · rcases List.mem_singleton.mp hm with rfl
            exact strJoin_ne_empty b1.2.1 hbp binv1
        · rw [if_neg hbp] at hx
          exact h1 x hx
      have hflag2 : (acc.2.2 || b1.2.2) = true →
          (if b1.2.1 ≠ [] then acc.2.1 ++ [strJoin b1.2.1] else acc.2.1) ≠ [] := by
        intro hfl
        simp only [Bool.or_eq_true] at hfl
        rcases hfl with hfl | hfl
        · have hacc := h2 hfl
          by_cases hbp : b1.2.1 ≠ []
          · rw [if_pos hbp]
            intro hc
            rcases List.append_eq_nil.mp hc with ⟨hc1, _⟩
            exact hacc hc1
          · rw [if_neg hbp]
            exact hacc
        · have hbp := binv2 hfl
          rw [if_pos hbp]
          intro hc
          rcases List.append_eq_nil.mp hc with ⟨_, hc2⟩
          cases hc2
      exact ih _ hparts2 hflag2

theorem pmc_content_ne_empty (s : Store) (noteId : Nat) (doc : List Block)
    (env : QtEnv) (h : (process_mixed_content s noteId doc env).2.2 = true) :
    (process_mixed_content s noteId doc env).2.1 ≠ "" := by
  unfold process_mixed_content at h ⊢
  obtain ⟨h1, h2⟩ := doc_fold_parts_invariant env noteId doc (s, [], false)
    (by intro x hx; cases hx) (by intro hx; cases hx)
  exact strIntercalate_ne_empty "<br/>" _ (h2 h) h1

theorem is_duplicate_store (s : Store) (tc : String) (img : List Nat) (now : Nat) :
    (is_duplicate s tc img now).1 = (get_or_create_clipboard_root s now).1 := by
  simp only [is_duplicate]
  repeat' split
  all_goals rfl

theorem gocr_effects (s : Store) (now : Nat) (hwf : NotesWF s) :
    NotesWF (get_or_create_clipboard_root s now).1 ∧
    s.nextNoteId ≤ (get_or_create_clipboard_root s now).1.nextNoteId ∧
    (get_or_create_clipboard_root s now).2 <
      (get_or_create_clipboard_root s now).1.nextNoteId ∧
    (get_or_create_clipboard_root s now).1.attachments = s.attachments ∧
    (get_or_create_clipboard_root s now).1.nextAttId = s.nextAttId := by
  unfold get_or_create_clipboard_root
  cases h : get_note_by_title s "Буфер обмена" none with
  | none =>
      refine ⟨?_, by simp [create_note], by simp [create_note], by simp [create_note],
        by simp [create_note]⟩
      have := notesWF_append s
        [{ id := s.nextNoteId, parent := none, title := "Буфер обмена",
           body := some "", cursorPos := some 0, updatedAt := now }]
        (s.nextNoteId + 1) hwf (by omega)
        (by
          intro n hn
          rcases List.mem_singleton.mp hn with rfl
          exact ⟨by simp, by simp⟩)
      exact this
  | some root =>
      refine ⟨hwf, Nat.le_refl _, ?_, rfl, rfl⟩
      have hm := List.mem_of_find?_eq_some h
      exact (hwf root hm).1

theorem gocd_effects (s : Store) (rootId : Nat) (env : QtEnv) (hwf : NotesWF s)
    (hr : rootId < s.nextNoteId) :
    NotesWF (get_or_create_date_node s rootId env).1 ∧
    s.nextNoteId ≤ (get_or_create_date_node s rootId env).1.nextNoteId ∧
    (get_or_create_date_node s rootId env).2 <
      (get_or_create_date_node s rootId env).1.nextNoteId ∧
    (get_or_create_date_node s rootId env).1.attachments = s.attachments ∧
    (get_or_create_date_node s rootId env).1.nextAttId = s.nextAttId := by
  unfold get_or_create_date_node
  cases h : get_note_by_title s env.dateStr (some rootId) with
  | none =>
      refine ⟨?_, by simp [create_note], by simp [create_note], by simp [create_note],
        by simp [create_note]⟩
      have := notesWF_append s
        [{ id := s.nextNoteId, parent := some rootId, title := env.dateStr,
           body := some "", cursorPos := some 0, updatedAt := env.now }]
        (s.nextNoteId + 1) hwf (by omega)
        (by
          intro n hn
          rcases List.mem_singleton.mp hn with rfl
          refine ⟨by simp, ?_⟩
          intro p hp
          simp at hp
          omega)
      exact this
  | some d =>
      refine ⟨hwf, Nat.le_refl _, ?_, rfl, rfl⟩
      have hm := List.mem_of_find?_eq_some h
      exact (hwf d hm).1

theorem find?_map_id_inv {α : Type} (f : α → α) (p : α → Bool) (l : List α)
    (h : ∀ a, p (f a) = p a) : (l.map f).find? p = (l.find? p).map f := by
  induction l with
  | nil => rfl
  | cons x t ih =>
      rw [List.map_cons]
      by_cases hp : p x = true
      · rw [List.find?_cons_of_pos _ (by rw [h x]; exact hp),
          List.find?_cons_of_pos _ hp]
        rfl
      · rw [List.find?_cons_of_neg _ (by rw [h x]; exact hp),
          List.find?_cons_of_neg _ hp]
        exact ih

theorem save_note_attachments (s : Store) (noteId : Nat) (ttl body : String)
    (pos now : Nat) :
    (save_note s noteId ttl body pos now).attachments = s.attachments ∧
    (save_note s noteId ttl body pos now).nextAttId = s.nextAttId := by
  refine ⟨?_, ?_⟩ <;>
  · simp only [save_note]
    split <;> rfl

theorem get_note_save_update (st : Store) (leafId : Nat) (ttl body : String)
    (now : Nat) (row : Note)
    (hget : get_note st leafId = some row)
    (hbody : row.body.getD "" ≠ body) :
    get_note (save_note st leafId ttl body 0 now) leafId =
      some { row with title := ttl, body := some body, cursorPos := some 0,
                      updatedAt := now } := by
  have hrowid : row.id = leafId := by
    have hx := List.find?_some hget
    simpa using hx
  unfold save_note
  rw [hget]
  have hcond : (decide (row.title = ttl) && decide (row.body.getD "" = body) &&
      decide (row.cursorPos.getD 0 = 0)) = false := by
    simp [hbody]
  simp only [hcond, Bool.false_eq_true, if_false]
  show List.find? _ (st.notes.map _) = _
  rw [find?_map_id_inv _ _ _ (by
    intro n
    by_cases hid : n.id = leafId
    · rw [if_pos hid]
    · rw [if_neg hid])]
  rw [show st.notes.find? (fun n => n.id = leafId) = some row from hget]
  rw [show Option.map (fun n =>
      if n.id = leafId then
        { id := n.id, parent := n.parent, title := ttl, body := some body,
          cursorPos := some 0, updatedAt := now }
      else n) (some row) =
      some (if row.id = leafId then
        ({ id := row.id, parent := row.parent, title := ttl, body := some body,
           cursorPos := some 0, updatedAt := now } : Note)
      else row) from rfl]
  rw [if_pos hrowid]

/-- The three classified representations of a clipboard event, exactly as
`_on_clipboard_changed` computes them. -/
def eventText (p : MimeData) : String :=
  match p.text with
  | some t => pyStrip t
  | none => ""

def eventImage (p : MimeData) : List Nat := p.image.getD []

def eventHtml (p : MimeData) : String := p.html.getD ""

/-- The store and fresh leaf id right after the pipeline materializes
`Clipboard → date → leaf` for a non-duplicate event. -/
def captureLeaf (m : Monitor) (p : MimeData) (env : QtEnv) : Store × Nat :=
  let d1 := (is_duplicate m.store (eventText p) (eventImage p) env.now).1
  let r1 := get_or_create_clipboard_root d1 env.now
  let r2 := get_or_create_date_node r1.1 r1.2 env
  create_note r2.1 (some r2.2)
    (generate_note_title env (eventText p) (eventImage p) (decide (eventHtml p ≠ "")))
    env.now

/-- The markup-extraction run the pipeline performs for an event. -/
def captureProcessed (m : Monitor) (p : MimeData) (env : QtEnv) :
    Store × String × Bool :=
  process_mixed_content (captureLeaf m p env).1 (captureLeaf m p env).2
    (env.parseHtml (eventHtml p)) env

/-- The body stored on the leaf a capture commits (`none` when nothing was
committed). -/
def committedBody (m : Monitor) (p : MimeData) (env : QtEnv) : Option String :=
  match on_clipboard_changed m p env with
  | (m2, some leafId) => (get_note m2.store leafId).map (fun n => n.body.getD "")
  | (_, none) => none

/-- Number of resolvable images a parsed markup document yields. -/
def docImageCount (doc : List Block) : Nat :=
  (doc.flatten.filter (fun f =>
    match f with
    | Frag.image (some _) => true
    | _ => false)).length

/-- Spec-side definition following C5's words: when the rich markup yields no
image, a present raw bitmap must become one image fragment, preceded by the
escaped plain text when text is present. -/
def specC5BodyNoMarkupImage (textContent : String) (imageData : List Nat)
    (attId : Nat) : String :=
  if textContent ≠ "" then htmlEscape textContent ++ "<br/>" ++ imgTag attId
  else imgTag attId

def c5Mon : Monitor :=
  { store := { notes := [], attachments := [], state := [], nextNoteId := 1,
               nextAttId := 1, fkEnabled := true },
    lastText := "", lastImageData := [] }

def c5Payload : MimeData :=
  { text := some "X", image := some [7], html := some "<span>X</span>" }

def c5Env : QtEnv :=
  { parseHtml := fun _ => [[Frag.text "X"]], imageSize := fun _ => none,
    dateStr := "25.10.12", timeTitle := "12:00:00", attName := "clip.png", now := 3 }

/-- C5 counterexample to the claim as stated: a payload whose rich markup
yields `0` images but non-blank text, alongside a raw bitmap. The code lets
the markup win (committed body `"X"`, no attachment stored — the bitmap is
dropped), while the claimed priority ("rich markup yielding at least one
image wins outright; otherwise a present raw bitmap becomes one image
fragment...") demands the text-then-image body with one stored attachment. -/
theorem C5_counterexample :
    docImageCount (c5Env.parseHtml "<span>X</span>") = 0 ∧
      (on_clipboard_changed c5Mon c5Payload c5Env).2 = some 3 ∧
      committedBody c5Mon c5Payload c5Env = some "X" ∧
      get_attachments (on_clipboard_changed c5Mon c5Payload c5Env).1.store 3 = [] ∧
      specC5BodyNoMarkupImage (eventText c5Payload) (eventImage c5Payload) 1 =
        htmlEscape "X" ++ "<br/>" ++ imgTag 1 ∧
      committedBody c5Mon c5Payload c5Env ≠
        some (specC5BodyNoMarkupImage (eventText c5Payload) (eventImage c5Payload) 1) := by
  set_option maxRecDepth 4096 in decide

theorem append_ne_empty_right (a b : String) (h : b ≠ "") : a ++ b ≠ "" := by
  apply ne_empty_of_data_pos
  rw [String.data_append, List.length_append]
  have : 0 < b.data.length := by
    cases hx : b.data with
    | nil => exact absurd (String.ext hx) h
    | cons c r => simp
  omega

theorem add_attachment_snd (s : Store) (noteId : Nat) (nm : String)
    (bs : List Nat) (mm : String) :
    (add_attachment s noteId nm bs mm).2 = s.nextAttId := rfl

theorem add_attachment_atts (s : Store) (noteId : Nat) (nm : String)
    (bs : List Nat) (mm : String) :
    (add_attachment s noteId nm bs mm).1.attachments =
      s.attachments ++
        [{ id := s.nextAttId, noteId := noteId, kind := "image",
           name := nm, bytes := bs, mime := mm }] := rfl

theorem filter_attachments_none (l : List Attachment) (noteId : Nat)
    (h : ∀ a ∈ l, a.noteId ≠ noteId) :
    l.filter (fun a => a.noteId = noteId && a.kind = "image") = [] := by
  rw [List.filter_eq_nil_iff]
  intro a ha
  simp [h a ha]

theorem create_note_effects (s : Store) (parent : Option Nat) (ttl : String)
    (now : Nat) (hwf : NotesWF s) (hp : ∀ q, parent = some q → q < s.nextNoteId) :
    NotesWF (create_note s parent ttl now).1 ∧
    s.nextNoteId ≤ (create_note s parent ttl now).2 ∧
    (create_note s parent ttl now).1.attachments = s.attachments ∧
    (create_note s parent ttl now).1.nextAttId = s.nextAttId ∧
    ∃ row, get_note (create_note s parent ttl now).1 (create_note s parent ttl now).2 =
        some row ∧ row.body = some "" := by
  refine ⟨?_, Nat.le_refl _, rfl, rfl, ?_⟩
  · show NotesWF
      { s with
        notes := s.notes ++
          [{ id := s.nextNoteId, parent := parent, title := ttl,
             body := some "", cursorPos := some 0, updatedAt := now }],
        nextNoteId := s.nextNoteId + 1 }
    exact notesWF_append s _ _ hwf (Nat.le_succ _)
      (by
        intro n hn
        rcases List.mem_singleton.mp hn with rfl
        refine ⟨Nat.lt_succ_self _, ?_⟩
        intro q hq
        have h1 := hp q hq
        omega)
  · have hnone : s.notes.find? (fun n => n.id = s.nextNoteId) = none := by
      rw [List.find?_eq_none]
      intro n hn
      have h1 := (hwf n hn).1
      simp only [decide_eq_true_eq]
      omega
    refine ⟨{ id := s.nextNoteId, parent := parent, title := ttl,
               body := some "", cursorPos := some 0, updatedAt := now }, ?_, rfl⟩
    show (s.notes ++
        [({ id := s.nextNoteId, parent := parent, title := ttl,
            body := some "", cursorPos := some 0, updatedAt := now } : Note)]).find?
        (fun n => n.id = s.nextNoteId) = some _
    rw [find?_append_left_none _ _ _ hnone]
    simp

theorem captureLeaf_effects (m : Monitor) (p : MimeData) (env : QtEnv)
    (hwf : NotesWF m.store) :
    NotesWF (captureLeaf m p env).1 ∧
    m.store.nextNoteId ≤ (captureLeaf m p env).2 ∧
    (captureLeaf m p env).1.attachments = m.store.attachments ∧
    (captureLeaf m p env).1.nextAttId = m.store.nextAttId ∧
    ∃ row, get_note (captureLeaf m p env).1 (captureLeaf m p env).2 = some row ∧
      row.body = some "" := by
  obtain ⟨hwf0, hmono0, -, hatt0, haid0⟩ := gocr_effects m.store env.now hwf
  obtain ⟨hwf1, hmono1, hroot1, hatt1, haid1⟩ :=
    gocr_effects (get_or_create_clipboard_root m.store env.now).1 env.now hwf0
  obtain ⟨hwf2, hmono2, hdate2, hatt2, haid2⟩ :=
    gocd_effects
      (get_or_create_clipboard_root
        (get_or_create_clipboard_root m.store env.now).1 env.now).1
      (get_or_create_clipboard_root
        (get_or_create_clipboard_root m.store env.now).1 env.now).2 env hwf1 hroot1
  obtain ⟨hwfc, hmonoc, hattc, haidc, hrowc⟩ :=
    create_note_effects
      (get_or_create_date_node
        (get_or_create_clipboard_root
          (get_or_create_clipboard_root m.store env.now).1 env.now).1
        (get_or_create_clipboard_root
          (get_or_create_clipboard_root m.store env.now).1 env.now).2 env).1
      (some (get_or_create_date_node
        (get_or_create_clipboard_root
          (get_or_create_clipboard_root m.store env.now).1 env.now).1
        (get_or_create_clipboard_root
          (get_or_create_clipboard_root m.store env.now).1 env.now).2 env).2)
      (generate_note_title env (eventText p) (eventImage p)
        (decide (eventHtml p ≠ "")))
      env.now hwf2
      (by
        intro q hq
        have hq2 := Option.some.inj hq
        omega)
  have hkey : captureLeaf m p env =
      create_note
        (get_or_create_date_node
          (get_or_create_clipboard_root
            (get_or_create_clipboard_root m.store env.now).1 env.now).1
          (get_or_create_clipboard_root
            (get_or_create_clipboard_root m.store env.now).1 env.now).2 env).1
        (some (get_or_create_date_node
          (get_or_create_clipboard_root
            (get_or_create_clipboard_root m.store env.now).1 env.now).1
          (get_or_create_clipboard_root
            (get_or_create_clipboard_root m.store env.now).1 env.now).2 env).2)
        (generate_note_title env (eventText p) (eventImage p)
          (decide (eventHtml p ≠ "")))
        env.now := by
    simp only [captureLeaf]
    rw [is_duplicate_store]
  rw [hkey]
  exact ⟨hwfc, by omega, hattc.trans (hatt2.trans (hatt1.trans hatt0)),
    haidc.trans (haid2.trans (haid1.trans haid0)), hrowc⟩

/-- C5 (amended): the committed body is chosen by fixed priority, with rich
markup winning outright whenever its extraction yields any substantive
content (at least one resolvable image or non-whitespace text) — not only
when it yields an image; otherwise a present raw bitmap becomes one image
fragment preceded by the escaped plain text when text is present (stored as
exactly one new attachment on the leaf); otherwise the escaped plain text
alone, with no attachment. -/
theorem C5_priority_amended (m : Monitor) (p : MimeData) (env : QtEnv)
    (hwf : NotesWF m.store)
    (hatt : ∀ a ∈ m.store.attachments, a.noteId < m.store.nextNoteId)
    (hne : eventText p ≠ "" ∨ eventImage p ≠ [] ∨ eventHtml p ≠ "")
    (hnodup : (is_duplicate m.store (eventText p) (eventImage p) env.now).2 = false) :
    (eventHtml p ≠ "" → (captureProcessed m p env).2.2 = true →
      (on_clipboard_changed m p env).2 = some (captureLeaf m p env).2 ∧
        committedBody m p env = some (captureProcessed m p env).2.1) ∧
    ((eventHtml p = "" ∨ (captureProcessed m p env).2.2 = false) →
      eventImage p ≠ [] →
      (on_clipboard_changed m p env).2 = some (captureLeaf m p env).2 ∧
        committedBody m p env =
          some (specC5BodyNoMarkupImage (eventText p) (eventImage p)
            m.store.nextAttId) ∧
        get_attachments (on_clipboard_changed m p env).1.store
            (captureLeaf m p env).2 =
          [{ id := m.store.nextAttId, noteId := (captureLeaf m p env).2,
             kind := "image", name := "clipboard_image.png",
             bytes := eventImage p, mime := "image/png" }]) ∧
    ((eventHtml p = "" ∨ (captureProcessed m p env).2.2 = false) →
      eventImage p = [] → eventText p ≠ "" →
      (on_clipboard_changed m p env).2 = some (captureLeaf m p env).2 ∧
        committedBody m p env = some (preWrap (htmlEscape (eventText p))) ∧
        get_attachments (on_clipboard_changed m p env).1.store
            (captureLeaf m p env).2 = []) := by
  have hguard : (!decide (eventText p ≠ "") && !decide (eventImage p ≠ []) &&
      !decide (eventHtml p ≠ "")) = false := by
    rcases hne with h | h | h <;> simp [h]
  have hfold1 : (match p.text with | some t => pyStrip t | none => "") = eventText p := rfl
  have hfold2 : p.image.getD [] = eventImage p := rfl
  have hfold3 : p.html.getD "" = eventHtml p := rfl
  have hfoldleaf : create_note
      (get_or_create_date_node
        (get_or_create_clipboard_root
          (is_duplicate m.store (eventText p) (eventImage p) env.now).1 env.now).1
        (get_or_create_clipboard_root
          (is_duplicate m.store (eventText p) (eventImage p) env.now).1 env.now).2
        env).1
      (some (get_or_create_date_node
        (get_or_create_clipboard_root
          (is_duplicate m.store (eventText p) (eventImage p) env.now).1 env.now).1
        (get_or_create_clipboard_root
          (is_duplicate m.store (eventText p) (eventImage p) env.now).1 env.now).2
        env).2)
      (generate_note_title env (eventText p) (eventImage p)
        (decide (eventHtml p ≠ ""))) env.now = captureLeaf m p env := rfl
  have hfoldpr : process_mixed_content (captureLeaf m p env).1 (captureLeaf m p env).2
      (env.parseHtml (eventHtml p)) env = captureProcessed m p env := rfl
  obtain ⟨hwfL, hmonoL, hattL, haidL, row, hgetrow, hrowbody⟩ :=
    captureLeaf_effects m p env hwf
  refine ⟨?_, ?_, ?_⟩
  · intro hhtml hpr
    have hne1 : (captureProcessed m p env).2.1 ≠ "" :=
      pmc_content_ne_empty (captureLeaf m p env).1 (captureLeaf m p env).2
        (env.parseHtml (eventHtml p)) env hpr
    have hrun : on_clipboard_changed m p env =
        ({ store := save_note (captureProcessed m p env).1 (captureLeaf m p env).2
             (generate_note_title env (eventText p) (eventImage p)
               (decide (eventHtml p ≠ ""))) (captureProcessed m p env).2.1 0 env.now,
           lastText := eventText p, lastImageData := eventImage p },
         some (captureLeaf m p env).2) := by
      simp only [on_clipboard_changed]
      rw [hfold1, hfold2, hfold3, hguard]
      simp only [Bool.false_eq_true, if_false]
      rw [hnodup]
      simp only [Bool.false_eq_true, if_false]
      rw [hfoldleaf, hfoldpr]
      simp [hhtml, hpr, hne1]
    refine ⟨by rw [hrun], ?_⟩
    have hgetpr : get_note (captureProcessed m p env).1 (captureLeaf m p env).2 =
        some row := by
      show (captureProcessed m p env).1.notes.find?
        (fun n => n.id = (captureLeaf m p env).2) = some row
      rw [← hfoldpr, (pmc_store (captureLeaf m p env).1 (captureLeaf m p env).2
        (env.parseHtml (eventHtml p)) env).1]
      exact hgetrow
    have hupd := get_note_save_update (captureProcessed m p env).1
      (captureLeaf m p env).2
      (generate_note_title env (eventText p) (eventImage p)
        (decide (eventHtml p ≠ "")))
      (captureProcessed m p env).2.1 env.now row hgetpr
      (by rw [hrowbody]; exact Ne.symm hne1)
    simp only [committedBody, hrun]
    rw [hupd]
    simp
  · intro hcase himg
    have hbody1 : htmlEscape (eventText p) ++ "<br/>" ++ imgTag m.store.nextAttId ≠ "" :=
      append_ne_empty_right _ _ (imgTag_ne_empty _)
    have hrun : on_clipboard_changed m p env =
        ({ store := save_note
             (add_attachment (captureLeaf m p env).1 (captureLeaf m p env).2
               "clipboard_image.png" (eventImage p) "image/png").1
             (captureLeaf m p env).2
             (generate_note_title env (eventText p) (eventImage p)
               (decide (eventHtml p ≠ "")))
             (specC5BodyNoMarkupImage (eventText p) (eventImage p) m.store.nextAttId)
             0 env.now,
           lastText := eventText p, lastImageData := eventImage p },
         some (captureLeaf m p env).2) := by
      simp only [on_clipboard_changed]
      rw [hfold1, hfold2, hfold3, hguard]
      simp only [Bool.false_eq_true, if_false]
      rw [hnodup]
      simp only [Bool.false_eq_true, if_false]
      rw [hfoldleaf, hfoldpr]
      rcases hcase with hch | hcf
      · by_cases htext : eventText p = "" <;>
          simp [hch, himg, htext, specC5BodyNoMarkupImage, add_attachment_snd,
            haidL, imgTag_ne_empty, hbody1]
      · have hst : (captureProcessed m p env).1 = (captureLeaf m p env).1 :=
          pmc_no_content (captureLeaf m p env).1 (captureLeaf m p env).2
            (env.parseHtml (eventHtml p)) env hcf
        by_cases hch2 : eventHtml p = ""
        · by_cases htext : eventText p = "" <;>
            simp [hch2, himg, htext, specC5BodyNoMarkupImage, add_attachment_snd,
              haidL, imgTag_ne_empty, hbody1]
        · by_cases htext : eventText p = "" <;>
            simp [hch2, hcf, hst, himg, htext, specC5BodyNoMarkupImage,
              add_attachment_snd, haidL, imgTag_ne_empty, hbody1]
    have hsp : specC5BodyNoMarkupImage (eventText p) (eventImage p)
        m.store.nextAttId ≠ "" := by
      unfold specC5BodyNoMarkupImage
      by_cases htext : eventText p = ""
      · simp [htext, imgTag_ne_empty]
      · simp [htext, hbody1]
    refine ⟨by rw [hrun], ?_, ?_⟩
    · have hget2 : get_note
          (add_attachment (captureLeaf m p env).1 (captureLeaf m p env).2
            "clipboard_image.png" (eventImage p) "image/png").1
          (captureLeaf m p env).2 = some row := hgetrow
      have hupd := get_note_save_update
        (add_attachment (captureLeaf m p env).1 (captureLeaf m p env).2
          "clipboard_image.png" (eventImage p) "image/png").1
        (captureLeaf m p env).2
        (generate_note_title env (eventText p) (eventImage p)
          (decide (eventHtml p ≠ "")))
        (specC5BodyNoMarkupImage (eventText p) (eventImage p) m.store.nextAttId)
        env.now row hget2 (by rw [hrowbody]; exact Ne.symm hsp)
      simp only [committedBody, hrun]
      rw [hupd]
      simp
    · simp only [hrun]
      simp only [get_attachments]
      rw [(save_note_attachments _ _ _ _ _ _).1, add_attachment_atts, hattL,
        List.filter_append,
        filter_attachments_none m.store.attachments (captureLeaf m p env).2
          (fun a ha => by have h1 := hatt a ha; have h2 := hmonoL; omega)]
      simp [haidL]
  · intro hcase himg0 htext
    have hpw : preWrap (htmlEscape (eventText p)) ≠ "" := preWrap_ne_empty _
    have hrun : on_clipboard_changed m p env =
        ({ store := save_note (captureLeaf m p env).1 (captureLeaf m p env).2
             (generate_note_title env (eventText p) (eventImage p)
               (decide (eventHtml p ≠ "")))
             (preWrap (htmlEscape (eventText p))) 0 env.now,
           lastText := eventText p, lastImageData := eventImage p },
         some (captureLeaf m p env).2) := by
      simp only [on_clipboard_changed]
      rw [hfold1, hfold2, hfold3, hguard]
      simp only [Bool.false_eq_true, if_false]
      rw [hnodup]
      simp only [Bool.false_eq_true, if_false]
      rw [hfoldleaf, hfoldpr]
      rcases hcase with hch | hcf
      · simp [hch, himg0, htext, hpw]
      · have hst : (captureProcessed m p env).1 = (captureLeaf m p env).1 :=
          pmc_no_content (captureLeaf m p env).1 (captureLeaf m p env).2
            (env.parseHtml (eventHtml p)) env hcf
        by_cases hch2 : eventHtml p = ""
        · simp [hch2, himg0, htext, hpw]
        · simp [hch2, hcf, hst, himg0, htext, hpw]
    refine ⟨by rw [hrun], ?_, ?_⟩
    · have hupd := get_note_save_update (captureLeaf m p env).1
        (captureLeaf m p env).2
        (generate_note_title env (eventText p) (eventImage p)
          (decide (eventHtml p ≠ "")))
        (preWrap (htmlEscape (eventText p))) env.now row hgetrow
        (by rw [hrowbody]; exact Ne.symm hpw)
      simp only [committedBody, hrun]
      rw [hupd]
      simp
    · simp only [hrun]
      simp only [get_attachments]
      rw [(save_note_attachments _ _ _ _ _ _).1, hattL]
      exact filter_attachments_none m.store.attachments (captureLeaf m p env).2
        (fun a ha => by have h1 := hatt a ha; have h2 := hmonoL; omega)

def c5wStore : Store :=
  { notes := [], attachments := [], state := [], nextNoteId := 1,
    nextAttId := 1, fkEnabled := true }

def c5wMon : Monitor := { store := c5wStore, lastText := "", lastImageData := [] }

def c5wPayload : MimeData := { text := some "X", image := some [7], html := none }

def c5wEnv : QtEnv :=
  { parseHtml := fun _ => [], imageSize := fun _ => none, dateStr := "25.10.12",
    timeTitle := "12:00:00", attName := "clip.png", now := 3 }

/-- Witness instantiating the amended C5 priority theorem on a concrete
text-plus-bitmap event with no rich markup: the capture commits the
text-then-image body and stores exactly one attachment. -/
theorem C5_priority_amended_witness :
    (is_duplicate c5wMon.store (eventText c5wPayload) (eventImage c5wPayload)
        c5wEnv.now).2 = false ∧
    ((on_clipboard_changed c5wMon c5wPayload c5wEnv).2 =
        some (captureLeaf c5wMon c5wPayload c5wEnv).2 ∧
      committedBody c5wMon c5wPayload c5wEnv =
        some (specC5BodyNoMarkupImage (eventText c5wPayload) (eventImage c5wPayload)
          c5wMon.store.nextAttId) ∧
      get_attachments (on_clipboard_changed c5wMon c5wPayload c5wEnv).1.store
          (captureLeaf c5wMon c5wPayload c5wEnv).2 =
        [{ id := c5wMon.store.nextAttId,
           noteId := (captureLeaf c5wMon c5wPayload c5wEnv).2, kind := "image",
           name := "clipboard_image.png", bytes := eventImage c5wPayload,
           mime := "image/png" }]) :=
  ⟨by decide,
   (C5_priority_amended c5wMon c5wPayload c5wEnv
      (by intro n hn; exact absurd hn (List.not_mem_nil n))
      (by intro a ha; exact absurd ha (List.not_mem_nil a))
      (Or.inr (Or.inl (by decide)))
      (by decide)).2.1 (Or.inl (by decide)) (by decide)⟩

/-! ## C7: branch cycling -/

/-- `MainWindow.toggle_current_clipboard_branch`: the method actually bound on
the main window (`MainWindow` does not inherit `BranchControlMixin`): a
two-way toggle between `Текущие` and `Буфер обмена` that always jumps to the
target branch's most recent leaf (or its root), with no remembered
positions. -/
def mw_toggle_current_clipboard_branch (w : WinState) (now : Nat) : WinState :=
  let w1 := save_current_note w now
  let currentBranch := ui_get_root_branch_name w1.treeNotes w1.selectedItem
  let targetBranch := if currentBranch = "Текущие" then "Буфер обмена" else "Текущие"
  let w6 :=
    match get_note_by_title w1.store targetBranch none with
    | none =>
        let r := create_note w1.store none targetBranch now
        let w3 := { w1 with store := r.1 }
        let w4 := load_notes_tree w3 [] now
        select_note_by_id w4 r.2 now
    | some root =>
        match get_last_descendant w1.store root.id with
        | some lastNote => select_note_by_id w1 lastNote.id now
        | none => select_note_by_id w1 root.id now
  { w6 with lastActiveBranch := some targetBranch }

def c7Store : Store :=
  { notes :=
      [{ id := 1, parent := none, title := "Текущие", body := some "",
         cursorPos := none, updatedAt := 0 },
       { id := 2, parent := some 1, title := "25.10.11", body := some "",
         cursorPos := none, updatedAt := 0 },
       { id := 3, parent := some 2, title := "10:00:00", body := some "",
         cursorPos := none, updatedAt := 0 },
       { id := 4, parent := none, title := "Буфер обмена", body := some "",
         cursorPos := none, updatedAt := 0 },
       { id := 5, parent := some 4, title := "25.10.11", body := some "",
         cursorPos := none, updatedAt := 0 },
       { id := 6, parent := some 5, title := "10:01:00", body := some "",
         cursorPos := none, updatedAt := 0 },
       { id := 7, parent := some 5, title := "10:02:00", body := some "",
         cursorPos := none, updatedAt := 0 },
       { id := 8, parent := none, title := "Избранное", body := some "",
         cursorPos := none, updatedAt := 0 }],
    attachments := [], state := [], nextNoteId := 9, nextAttId := 1,
    fkEnabled := true }

def c7Win : WinState :=
  { store := c7Store, currentNoteId := none, selectedItem := some 3,
    treeNotes := c7Store.notes,
    editor := { currentNoteId := none, html := "", cursorPos := 0, readOnly := false },
    isReloadingTree := false, isSwitchingNote := false,
    branchPositions := [("Буфер обмена", 6)], lastActiveBranch := none }

def c7StoreB : Store :=
  { notes :=
      [{ id := 4, parent := none, title := "Буфер обмена", body := some "",
         cursorPos := none, updatedAt := 0 },
       { id := 5, parent := some 4, title := "25.10.11", body := some "",
         cursorPos := none, updatedAt := 0 },
       { id := 6, parent := some 5, title := "10:01:00", body := some "",
         cursorPos := none, updatedAt := 0 }],
    attachments := [], state := [], nextNoteId := 8, nextAttId := 1,
    fkEnabled := true }

def c7WinB : WinState :=
  { store := c7StoreB, currentNoteId := none, selectedItem := some 6,
    treeNotes := c7StoreB.notes,
    editor := { currentNoteId := none, html := "", cursorPos := 0, readOnly := false },
    isReloadingTree := false, isSwitchingNote := false,
    branchPositions := [], lastActiveBranch := none }

def c7T1 : WinState := toggle_current_clipboard_branch c7Win 9

def c7T2 : WinState := toggle_current_clipboard_branch c7T1 9

def c7T3 : WinState := toggle_current_clipboard_branch c7T2 9

def c7B1 : WinState := toggle_current_clipboard_branch c7WinB 9

def c7M1 : WinState := mw_toggle_current_clipboard_branch c7Win 9

def c7M3 : WinState :=
  mw_toggle_current_clipboard_branch
    (mw_toggle_current_clipboard_branch c7M1 9) 9

/-- C7 (amended): `BranchControlMixin.toggle_current_clipboard_branch` does
advance in the fixed cycle Текущие → Буфер обмена → Избранное → Текущие,
preferring the remembered position of the target branch when it still exists
there (here note 6, even though the most recent clipboard leaf is 7), else the
branch's most recent leaf (returning to note 3 in Текущие on the third
toggle), else the branch root (cycling into the empty Избранное selects its
root, note 8; cycling into an absent Избранное first creates that root).
However this holds only for the mixin: `MainWindow.toggle_current_clipboard_branch`,
the method actually bound on the main window — `MainWindow` does not inherit
`BranchControlMixin` — is a two-way Текущие ↔ Буфер обмена toggle with no
remembered positions (see the counterexample). -/
theorem C7_branch_cycling :
    ui_get_root_branch_name c7Win.treeNotes c7Win.selectedItem = "Текущие" ∧
    posGet c7Win.branchPositions "Буфер обмена" = some 6 ∧
    (get_last_descendant c7Win.store 4).map (fun n => n.id) = some 7 ∧
    c7T1.lastActiveBranch = some "Буфер обмена" ∧
    c7T1.selectedItem = some 6 ∧
    get_last_descendant c7Win.store 8 = none ∧
    c7T2.lastActiveBranch = some "Избранное" ∧
    c7T2.selectedItem = some 8 ∧
    posGet c7Win.branchPositions "Текущие" = none ∧
    (get_last_descendant c7T2.store 1).map (fun n => n.id) = some 3 ∧
    c7T3.lastActiveBranch = some "Текущие" ∧
    c7T3.selectedItem = some 3 ∧
    ui_get_root_branch_name c7T3.treeNotes c7T3.selectedItem = "Текущие" ∧
    get_note_by_title c7WinB.store "Избранное" none = none ∧
    c7B1.lastActiveBranch = some "Избранное" ∧
    c7B1.selectedItem = some 8 ∧
    get_note c7B1.store 8 =
      some { id := 8, parent := none, title := "Избранное", body := some "",
             cursorPos := some 0, updatedAt := 9 } := by
  set_option maxRecDepth 8192 in decide

/-- C7 counterexample to the claim as stated for the window's own method:
starting from the same state in `Текущие`, `MainWindow`'s toggle ignores the
remembered clipboard position (note 6) and jumps to the most recent leaf
(note 7); three toggles do not return to `Текущие` but land in
`Буфер обмена`, and `Избранное` is never targeted. -/
theorem C7_counterexample :
    posGet c7Win.branchPositions "Буфер обмена" = some 6 ∧
    c7M1.lastActiveBranch = some "Буфер обмена" ∧
    c7M1.selectedItem = some 7 ∧
    c7M3.lastActiveBranch = some "Буфер обмена" ∧
    c7M3.selectedItem = some 7 ∧
    ui_get_root_branch_name c7M3.treeNotes c7M3.selectedItem = "Буфер обмена" := by
  set_option maxRecDepth 8192 in decide
